import Mathlib

/-!
Verification of the time-series fetch, alignment, gap-filling, slicing and
cross-entity aggregation core of the Bedrock usage analyzer
(`src/bedrock_analyzer/core/metrics_fetcher.py`).

Modelling conventions (shallow embedding):
* Timestamps are whole seconds since the epoch, modelled as `Int`; the Python
  code manipulates timezone-aware `datetime` values, and every timestamp the
  core handles (CloudWatch data points, window and chunk boundaries) is an
  offset of whole seconds from the fetch anchor.
* Metric values are rationals (`ℚ`), since TPM/RPM divide period sums by
  `period/60` minutes; a missing reading (Python `None`) is `none : Option ℚ`.
* A Python dict keyed by strings or timestamps is an association list in
  insertion order; `List.lookup` models `dict[...]`/`dict.get(...)`.  A dict
  comprehension `{k: v for k, v in zip(...)}` is modelled by looking the key
  up in the *reversed* zip, because a later duplicate key overwrites an
  earlier one in a Python dict while `List.lookup` returns the first hit.
* `datetime.now(timezone.utc)` is modelled by an explicit `now : Int` argument.
* Python `for`/`while` loops become folds or explicitly bounded recursion; the
  iteration-count bounds are exact whenever the relevant period is positive.
  The source would loop forever for period ≤ 0, which no caller supplies
  (granularities are 60, 300 or 3600 seconds).
-/

/-- One named time series as shipped to the caller: parallel lists of
timestamps and (nullable) values, cf. the `{'timestamps': ..., 'values': ...}`
dicts built by `_process_combined_time_series`. -/
structure Series where
  timestamps : List Int
  values : List (Option ℚ)
deriving DecidableEq

/-! ### Generic association-list lemmas shared by several developments -/

theorem lookup_cons {α β : Type*} [BEq α] [LawfulBEq α] (k a : α) (b : β)
    (l : List (α × β)) :
    ((a, b) :: l).lookup k = if k == a then some b else l.lookup k := by
  cases h : k == a <;> simp [List.lookup, h]

theorem lookup_eq_some_of_mem {α β : Type*} [BEq α] [LawfulBEq α] {l : List (α × β)}
    (hk : (l.map Prod.fst).Nodup) {p : α × β} (hp : p ∈ l) :
    l.lookup p.1 = some p.2 := by
  induction l with
  | nil => cases hp
  | cons q l ih =>
      obtain ⟨a, b⟩ := q
      rcases List.mem_cons.mp hp with h | hp
      · subst h; simp [lookup_cons]
      · have hne : p.1 ≠ a := by
          intro h
          have hm : p.1 ∈ l.map Prod.fst := List.mem_map_of_mem Prod.fst hp
          rw [h] at hm
          exact (List.nodup_cons.mp hk).1 hm
        rw [lookup_cons, if_neg (by simp [hne])]
        exact ih (List.nodup_cons.mp hk).2 hp

theorem lookup_eq_none_of_not_mem {α β : Type*} [BEq α] [LawfulBEq α] {l : List (α × β)}
    {k : α} (hk : ∀ p ∈ l, p.1 ≠ k) : l.lookup k = none := by
  induction l with
  | nil => rfl
  | cons q l ih =>
      obtain ⟨a, b⟩ := q
      have hne : a ≠ k := hk (a, b) (by simp)
      rw [lookup_cons, if_neg (by simp; exact fun h => hne h.symm)]
      exact ih fun p hp => hk p (List.mem_cons_of_mem _ hp)

theorem mem_of_lookup_eq_some {α β : Type*} [BEq α] [LawfulBEq α] {l : List (α × β)}
    {k : α} {v : β} (h : l.lookup k = some v) : (k, v) ∈ l := by
  induction l with
  | nil => cases h
  | cons q l ih =>
      obtain ⟨a, b⟩ := q
      rw [lookup_cons] at h
      by_cases hq : k = a
      · rw [if_pos (by simp [hq])] at h
        cases h
        simp [hq]
      · rw [if_neg (by simp [hq])] at h
        exact List.mem_cons_of_mem _ (ih h)

theorem lookup_append_of_eq_none {α β : Type*} [BEq α] [LawfulBEq α] {l r : List (α × β)}
    {k : α} (h : l.lookup k = none) : (l ++ r).lookup k = r.lookup k := by
  induction l with
  | nil => rfl
  | cons q l ih =>
      obtain ⟨a, b⟩ := q
      rw [lookup_cons] at h
      by_cases hq : k = a
      · rw [if_pos (by simp [hq])] at h; cases h
      · rw [if_neg (by simp [hq])] at h
        rw [List.cons_append, lookup_cons, if_neg (by simp [hq])]
        exact ih h

/-! ### `_fill_missing_timestamps` (GapFiller, §4.4)

Source lines 496–531: given parallel lists of (sorted) timestamps and values
and a period, build the regular grid from the first to the last timestamp
inclusive, stepping by `period` seconds, and read each tick's value out of the
dict `{ts: val}` (missing ticks become null).  The
`while current_time <= end_time` loop appends `first + k * period` for
`k = 0, 1, ...` while that stays `≤ last`; for `period > 0` that is
`(last - first) / period + 1` iterations (integer floor division, zero
iterations when `last < first`). -/
def fill_missing_timestamps (timestamps : List Int) (values : List (Option ℚ))
    (period : Int) : List Int × List (Option ℚ) :=
  match timestamps, values with
  | [], _ => (timestamps, values)
  | _, [] => (timestamps, values)
  | t0 :: rest, _ :: _ =>
      let end_time := (t0 :: rest).getLastD t0
      let timestamp_map := (timestamps.zip values).reverse
      let n : Nat := ((end_time - t0) / period + 1).toNat
      let filled_timestamps := (List.range n).map (fun (k : Nat) => t0 + (k : Int) * period)
      (filled_timestamps,
       filled_timestamps.map (fun t => (timestamp_map.lookup t).getD none))

theorem fill_nil_left (values : List (Option ℚ)) (period : Int) :
    fill_missing_timestamps [] values period = ([], values) := by
  cases values <;> rfl

theorem fill_nil_right (timestamps : List Int) (period : Int) :
    fill_missing_timestamps timestamps [] period = (timestamps, []) := by
  cases timestamps <;> rfl

theorem fill_cons (t0 : Int) (rest : List Int) (v0 : Option ℚ)
    (vrest : List (Option ℚ)) (period : Int) :
    fill_missing_timestamps (t0 :: rest) (v0 :: vrest) period =
      ((List.range (((t0 :: rest).getLastD t0 - t0) / period + 1).toNat).map
          (fun (k : Nat) => t0 + (k : Int) * period),
       ((List.range (((t0 :: rest).getLastD t0 - t0) / period + 1).toNat).map
          (fun (k : Nat) => t0 + (k : Int) * period)).map
          (fun t =>
            ((((t0 :: rest).zip (v0 :: vrest)).reverse.lookup t).getD none))) := rfl

theorem zip_self_map {α β : Type*} (f : α → β) :
    ∀ l : List α, l.zip (l.map f) = l.map (fun x => (x, f x))
  | [] => rfl
  | a :: l => by simpa using zip_self_map f l

theorem grid_nodup {t0 period : Int} (hp : 0 < period) (n : Nat) :
    ((List.range n).map (fun (k : Nat) => t0 + (k : Int) * period)).Nodup := by
  refine List.Nodup.map ?_ (List.nodup_range n)
  intro a b hab
  simp only at hab
  have h : (a : Int) * period = (b : Int) * period := by linarith
  have := mul_right_cancel₀ (ne_of_gt hp) h
  exact_mod_cast this

theorem getLastD_map_range {α : Type*} (f : Nat → α) (m : Nat) (d : α) :
    ((List.range (m + 1)).map f).getLastD d = f m := by
  rw [List.range_succ, List.map_append]
  simp

/-- Every non-null pair in the gap-filled output already occurs among the
input (timestamp, value) pairs: gap filling inserts only nulls. -/
theorem fill_some_provenance (timestamps : List Int) (values : List (Option ℚ))
    (period : Int) :
    ∀ t w, (t, w) ∈ ((fill_missing_timestamps timestamps values period).1.zip
        (fill_missing_timestamps timestamps values period).2) →
      w ≠ none → (t, w) ∈ timestamps.zip values := by
  intro t w hmem hw
  cases timestamps with
  | nil => rw [fill_nil_left] at hmem; simp at hmem
  | cons t0 rest =>
      cases values with
      | nil => rw [fill_nil_right] at hmem; simp at hmem
      | cons v0 vrest =>
          rw [fill_cons] at hmem
          simp only at hmem
          rw [zip_self_map] at hmem
          rcases List.mem_map.mp hmem with ⟨x, hx, hxe⟩
          obtain ⟨h1, h2⟩ := Prod.mk.inj hxe
          subst h1
          cases hl : (((t0 :: rest).zip (v0 :: vrest)).reverse.lookup x) with
          | none => rw [hl] at h2; simp at h2; exact absurd h2.symm hw
          | some u =>
              rw [hl] at h2
              simp only [Option.getD_some] at h2
              subst h2
              exact List.mem_reverse.mp (mem_of_lookup_eq_some hl)

/-- Looking a grid tick up in the value dict yields null when the tick is not
an input timestamp. -/
theorem fill_absent_none (timestamps : List Int) (values : List (Option ℚ))
    (period : Int) :
    ∀ t w, (t, w) ∈ ((fill_missing_timestamps timestamps values period).1.zip
        (fill_missing_timestamps timestamps values period).2) →
      t ∉ timestamps → w = none := by
  intro t w hmem ht
  cases timestamps with
  | nil => rw [fill_nil_left] at hmem; simp at hmem
  | cons t0 rest =>
      cases values with
      | nil =>
          rw [fill_nil_right] at hmem
          exact absurd (List.of_mem_zip hmem).1 ht
      | cons v0 vrest =>
          rw [fill_cons] at hmem
          simp only at hmem
          rw [zip_self_map] at hmem
          rcases List.mem_map.mp hmem with ⟨x, hx, hxe⟩
          obtain ⟨h1, h2⟩ := Prod.mk.inj hxe
          subst h1
          have hnone : (((t0 :: rest).zip (v0 :: vrest)).reverse.lookup x) = none := by
            refine lookup_eq_none_of_not_mem fun p hp hpt => ?_
            have h1 : p ∈ (t0 :: rest).zip (v0 :: vrest) := List.mem_reverse.mp hp
            have h2 : p.1 ∈ t0 :: rest := (List.of_mem_zip h1).1
            exact ht (hpt ▸ h2)
          rw [hnone] at h2
          exact h2.symm

theorem revzip_lookup_get (timestamps : List Int) (values : List (Option ℚ))
    (hnd : timestamps.Nodup) (hlen : values.length = timestamps.length)
    (i : Nat) (hi : i < timestamps.length) (hiv : i < values.length) :
    ((timestamps.zip values).reverse.lookup (timestamps.get ⟨i, hi⟩)) =
      some (values.get ⟨i, hiv⟩) := by
  have hkeys : (((timestamps.zip values).reverse).map Prod.fst).Nodup := by
    rw [List.map_reverse, List.map_fst_zip timestamps values (by omega)]
    exact List.nodup_reverse.mpr hnd
  have hmem : (timestamps.get ⟨i, hi⟩, values.get ⟨i, hiv⟩) ∈
      (timestamps.zip values).reverse := by
    rw [List.mem_reverse]
    have hz : i < (timestamps.zip values).length := by
      rw [List.length_zip]; omega
    have hget := @List.getElem_zip _ _ timestamps values i hz
    have : (timestamps.zip values).get ⟨i, hz⟩ =
        (timestamps.get ⟨i, hi⟩, values.get ⟨i, hiv⟩) := by
      simp [List.get_eq_getElem, hget]
    rw [← this]
    exact List.get_mem _ i hz
  exact lookup_eq_some_of_mem hkeys hmem

/-- Claim C8: gap-filling is idempotent.  If the input timestamps already form
a regular grid stepping by exactly `period` from the first to the last
timestamp (with matching value list), `_fill_missing_timestamps` returns the
same timestamps and values unchanged. -/
theorem c8_gap_filling_idempotent (t0 period : Int) (m : Nat)
    (timestamps : List Int) (values : List (Option ℚ))
    (hp : 0 < period)
    (hts : timestamps = (List.range (m + 1)).map (fun (k : Nat) => t0 + (k : Int) * period))
    (hlen : values.length = timestamps.length) :
    fill_missing_timestamps timestamps values period = (timestamps, values) := by
  have hlents : timestamps.length = m + 1 := by rw [hts]; simp
  obtain ⟨tc, restc, hcons⟩ : ∃ a l, timestamps = a :: l := by
    cases h : timestamps with
    | nil => rw [h] at hlents; simp at hlents
    | cons a l => exact ⟨a, l, rfl⟩
  obtain ⟨v0, vrest, hvcons⟩ : ∃ a l, values = a :: l := by
    cases h : values with
    | nil => rw [h] at hlen; rw [hlents] at hlen; simp at hlen
    | cons a l => exact ⟨a, l, rfl⟩
  have htc : tc = t0 := by
    have : (tc :: restc).headD 0 = ((List.range (m + 1)).map
        (fun (k : Nat) => t0 + (k : Int) * period)).headD 0 := by
      rw [← hcons, ← hts]
    rw [List.range_succ_eq_map] at this
    simpa using this
  subst htc
  have hlast : (tc :: restc).getLastD tc = tc + (m : Int) * period := by
    rw [← hcons, hts]
    exact getLastD_map_range _ m _
  have hn : (((tc :: restc).getLastD tc - tc) / period + 1).toNat = m + 1 := by
    rw [hlast]
    have : tc + (m : Int) * period - tc = (m : Int) * period := by ring
    rw [this, Int.mul_ediv_cancel _ (ne_of_gt hp)]
    omega
  rw [hcons, hvcons, fill_cons, hn, ← hts, ← hcons, ← hvcons]
  refine Prod.ext rfl ?_
  simp only
  have hnd : timestamps.Nodup := by
    rw [hts]; exact grid_nodup hp (m + 1)
  refine List.ext_get (by simpa using hlen.symm) ?_
  intro i h1 h2
  have hi : i < timestamps.length := by simpa using h1
  rw [List.get_map]
  rw [revzip_lookup_get timestamps values hnd hlen i hi h2]
  rfl

/-- Witness for C8 at a concrete regular grid. -/
theorem c8_gap_filling_idempotent_witness :
    (0 : Int) < 60 ∧
      ([0, 60, 120] : List Int) =
        (List.range (2 + 1)).map (fun (k : Nat) => (0 : Int) + (k : Int) * 60) ∧
      ([some 1, none, some 3] : List (Option ℚ)).length = ([0, 60, 120] : List Int).length ∧
      fill_missing_timestamps [0, 60, 120] [some 1, none, some 3] 60 =
        ([0, 60, 120], [some 1, none, some 3]) :=
  ⟨by decide, by decide, by decide,
    c8_gap_filling_idempotent 0 60 2 [0, 60, 120] [some 1, none, some 3]
      (by decide) (by decide) (by decide)⟩

/-- Claim C9: gap-filling silently discards off-grid samples.  For a non-empty
input series the output timestamps are exactly `first + k·period` for
`k = 0, 1, ...` through the last input timestamp; an input timestamp not of
that form appears nowhere in the output; a grid tick that is not an input
timestamp carries null; and any non-null output pair comes verbatim from the
input pairs (so an off-grid sample's value is lost). -/
theorem c9_gap_fill_discards_off_grid (t0 : Int) (rest : List Int)
    (v0 : Option ℚ) (vrest : List (Option ℚ)) (period : Int)
    (hp : 0 < period) (hle : t0 ≤ (t0 :: rest).getLastD t0) :
    (∀ t : Int,
        t ∈ (fill_missing_timestamps (t0 :: rest) (v0 :: vrest) period).1 ↔
          ∃ k : Nat, t = t0 + (k : Int) * period ∧ t ≤ (t0 :: rest).getLastD t0) ∧
    (∀ t ∈ t0 :: rest, (∀ k : Nat, t ≠ t0 + (k : Int) * period) →
        t ∉ (fill_missing_timestamps (t0 :: rest) (v0 :: vrest) period).1) ∧
    (∀ t w, (t, w) ∈ ((fill_missing_timestamps (t0 :: rest) (v0 :: vrest) period).1.zip
        (fill_missing_timestamps (t0 :: rest) (v0 :: vrest) period).2) →
        t ∉ t0 :: rest → w = none) ∧
    (∀ t w, (t, w) ∈ ((fill_missing_timestamps (t0 :: rest) (v0 :: vrest) period).1.zip
        (fill_missing_timestamps (t0 :: rest) (v0 :: vrest) period).2) →
        w ≠ none → (t, w) ∈ (t0 :: rest).zip (v0 :: vrest)) := by
  have hgrid : ∀ t : Int,
      t ∈ (fill_missing_timestamps (t0 :: rest) (v0 :: vrest) period).1 ↔
        ∃ k : Nat, t = t0 + (k : Int) * period ∧ t ≤ (t0 :: rest).getLastD t0 := by
    intro t
    rw [fill_cons]
    simp only [List.mem_map, List.mem_range]
    constructor
    · rintro ⟨k, hk, rfl⟩
      refine ⟨k, rfl, ?_⟩
      have hk2 : (k : Int) ≤ ((t0 :: rest).getLastD t0 - t0) / period := by
        have hnn : 0 ≤ ((t0 :: rest).getLastD t0 - t0) / period :=
          Int.ediv_nonneg (by omega) (le_of_lt hp)
        omega
      have := (Int.le_ediv_iff_mul_le hp).mp hk2
      omega
    · rintro ⟨k, rfl, hk⟩
      refine ⟨k, ?_, rfl⟩
      have hmul : (k : Int) * period ≤ (t0 :: rest).getLastD t0 - t0 := by omega
      have hk2 : (k : Int) ≤ ((t0 :: rest).getLastD t0 - t0) / period :=
        (Int.le_ediv_iff_mul_le hp).mpr hmul
      have hnn : 0 ≤ ((t0 :: rest).getLastD t0 - t0) / period :=
        Int.ediv_nonneg (by omega) (le_of_lt hp)
      omega
  refine ⟨hgrid, ?_, fill_absent_none _ _ _, fill_some_provenance _ _ _⟩
  intro t ht hform hmem
  rcases (hgrid t).mp hmem with ⟨k, hk, _⟩
  exact hform k hk

/-- Witness for C9: input `[0, 35, 120]` at period 60 — the off-grid sample
`(35, 2)` vanishes from the output and tick 60 is null. -/
theorem c9_gap_fill_discards_off_grid_witness :
    (0 : Int) < 60 ∧ (0 : Int) ≤ ([0, 35, 120] : List Int).getLastD 0 ∧
      ((35 : Int) ∉ (fill_missing_timestamps [0, 35, 120] [some 1, some 2, some 3] 60).1) := by
  have h := c9_gap_fill_discards_off_grid 0 [35, 120] (some 1) [some 2, some 3] 60
    (by decide) (by decide)
  refine ⟨by decide, by decide, ?_⟩
  exact h.2.1 35 (by decide) (fun k => by omega)

/-! ### `_aggregate_tokens_by_day` (DailyAggregator, §4.7)

Source lines 533–577: backward-rolling 24-hour windows anchored at "now".
`days_needed = int((now - oldest_ts)/86400) + 1` (Python `int()` truncates the
float quotient toward zero, i.e. `Int.tdiv`); window `k` is
`[now-(k+1)·86400, now-k·86400)`; each `(timestamp, tokens)` sample is added
into the first window whose right-open interval contains it (the windows are
disjoint, so at most one matches); `defaultdict(int)` inserts a key on first
touch; finally the touched windows are sorted by window start.  `range` of a
non-positive `days_needed` is empty, whence the `.toNat`. -/

def windowsFor (now : Int) (days_needed : Nat) : List (Int × Int) :=
  (List.range days_needed).map (fun (day_offset : Nat) =>
    (now - ((day_offset : Int) + 1) * 86400, now - (day_offset : Int) * 86400))

def addToWindow (window_totals : List ((Int × Int) × ℚ)) (w : Int × Int)
    (tokens : ℚ) : List ((Int × Int) × ℚ) :=
  if (window_totals.lookup w).isSome then
    window_totals.map (fun p => if p.1 = w then (p.1, p.2 + tokens) else p)
  else window_totals ++ [(w, tokens)]

/-- Comparison key used by `sorted(window_totals.keys(), key=lambda w: w[0])`. -/
def byStart (a b : Int × Int) : Prop := a.1 ≤ b.1

instance : DecidableRel byStart := fun a b => inferInstanceAs (Decidable (a.1 ≤ b.1))

instance : IsTotal (Int × Int) byStart := ⟨fun a b => le_total a.1 b.1⟩

instance : IsTrans (Int × Int) byStart := ⟨fun _ _ _ h1 h2 => le_trans h1 h2⟩

/-- One iteration of the sample loop: add the sample into the first window
whose right-open interval contains its timestamp, or drop it if none does. -/
def dayStep (windows : List (Int × Int)) (acc : List ((Int × Int) × ℚ))
    (s : Int × ℚ) : List ((Int × Int) × ℚ) :=
  match windows.find? (fun w => decide (w.1 ≤ s.1 ∧ s.1 < w.2)) with
  | some w => addToWindow acc w s.2
  | none => acc

def aggregate_tokens_by_day (now : Int) (timestamps : List Int)
    (token_values : List ℚ) : List Int × List ℚ :=
  match timestamps, token_values with
  | [], _ => ([], [])
  | _, [] => ([], [])
  | oldest_ts :: _, _ :: _ =>
      let days_needed : Nat := ((now - oldest_ts).tdiv 86400 + 1).toNat
      let windows := windowsFor now days_needed
      let window_totals := (timestamps.zip token_values).foldl (dayStep windows) []
      let sorted_windows := (window_totals.map Prod.fst).insertionSort byStart
      (sorted_windows.map (fun w => w.1),
       sorted_windows.map (fun w => (window_totals.lookup w).getD 0))

theorem lookup_isSome_iff {α β : Type*} [BEq α] [LawfulBEq α] (l : List (α × β)) (k : α) :
    (l.lookup k).isSome ↔ k ∈ l.map Prod.fst := by
  induction l with
  | nil => simp [List.lookup]
  | cons q l ih =>
      obtain ⟨a, b⟩ := q
      rw [lookup_cons]
      by_cases h : k = a <;> simp [h, ih]

theorem map_update_of_not_mem {α β : Type*} [DecidableEq α]
    (l : List (α × β)) (w : α) (f : β → β) (h : ∀ p ∈ l, p.1 ≠ w) :
    l.map (fun p => if p.1 = w then (p.1, f p.2) else p) = l := by
  induction l with
  | nil => rfl
  | cons q l ih =>
      rw [List.map_cons, if_neg (h q (by simp)), ih fun p hp => h p (by simp [hp])]

theorem map_update_sum (l : List ((Int × Int) × ℚ)) (w : Int × Int) (v : ℚ)
    (hnd : (l.map Prod.fst).Nodup) (hmem : w ∈ l.map Prod.fst) :
    ((l.map (fun p => if p.1 = w then (p.1, p.2 + v) else p)).map Prod.snd).sum =
      (l.map Prod.snd).sum + v := by
  induction l with
  | nil => simp at hmem
  | cons q l ih =>
      obtain ⟨a, b⟩ := q
      by_cases h : a = w
      · subst h
        have hnot : ∀ p ∈ l, p.1 ≠ a := by
          intro p hp hpe
          have hm : p.1 ∈ l.map Prod.fst := List.mem_map_of_mem Prod.fst hp
          rw [hpe] at hm
          exact (List.nodup_cons.mp hnd).1 hm
        rw [List.map_cons, if_pos rfl,
          map_update_of_not_mem l a (fun x => x + v) hnot]
        simp only [List.map_cons, List.sum_cons]
        ring
      · have hmem2 : w ∈ l.map Prod.fst := by
          rcases List.mem_cons.mp hmem with he | hm
          · exact absurd he.symm h
          · exact hm
        rw [List.map_cons, if_neg h]
        simp only [List.map_cons, List.sum_cons]
        rw [ih (List.nodup_cons.mp hnd).2 hmem2]
        ring

theorem addToWindow_sum (l : List ((Int × Int) × ℚ)) (w : Int × Int) (v : ℚ)
    (hnd : (l.map Prod.fst).Nodup) :
    ((addToWindow l w v).map Prod.snd).sum = (l.map Prod.snd).sum + v := by
  unfold addToWindow
  by_cases h : (l.lookup w).isSome
  · rw [if_pos h]
    exact map_update_sum l w v hnd ((lookup_isSome_iff l w).mp h)
  · rw [if_neg h]
    simp

theorem addToWindow_keys (l : List ((Int × Int) × ℚ)) (w : Int × Int) (v : ℚ) :
    (addToWindow l w v).map Prod.fst =
      if (l.lookup w).isSome then l.map Prod.fst else l.map Prod.fst ++ [w] := by
  unfold addToWindow
  by_cases h : (l.lookup w).isSome
  · rw [if_pos h, if_pos h, List.map_map]
    refine List.map_congr_left fun p _ => ?_
    by_cases hp : p.1 = w <;> simp [hp]
  · rw [if_neg h, if_neg h]
    simp

theorem addToWindow_keys_nodup (l : List ((Int × Int) × ℚ)) (w : Int × Int) (v : ℚ)
    (hnd : (l.map Prod.fst).Nodup) :
    ((addToWindow l w v).map Prod.fst).Nodup := by
  rw [addToWindow_keys]
  by_cases h : (l.lookup w).isSome
  · rw [if_pos h]; exact hnd
  · rw [if_neg h]
    have hw : w ∉ l.map Prod.fst := fun hm => h ((lookup_isSome_iff l w).mpr hm)
    simp [List.nodup_append, hnd, hw]

theorem windowsFor_width (now : Int) (days_needed : Nat) :
    ∀ w ∈ windowsFor now days_needed, w.2 = w.1 + 86400 := by
  intro w hw
  rcases List.mem_map.mp hw with ⟨k, _, rfl⟩
  simp only
  ring

/-- Every timestamp in `[oldest, now)` lies in one of the backward-rolling
windows derived from `oldest`. -/
theorem windowsFor_exists (now oldest ts : Int) (h1 : oldest ≤ ts) (h2 : ts < now) :
    ∃ w ∈ windowsFor now ((now - oldest).tdiv 86400 + 1).toNat,
      w.1 ≤ ts ∧ ts < w.2 := by
  have hr : 1 ≤ now - ts := by omega
  have htd : (now - oldest).tdiv 86400 = (now - oldest) / 86400 :=
    Int.tdiv_eq_ediv (by omega) (by norm_num)
  set j : Int := (now - ts - 1) / 86400 with hj
  have hj0 : 0 ≤ j := Int.ediv_nonneg (by omega) (by norm_num)
  have hjlt : j.toNat < ((now - oldest).tdiv 86400 + 1).toNat := by
    rw [htd]; omega
  have hmem : (now - (j + 1) * 86400, now - j * 86400) ∈
      windowsFor now ((now - oldest).tdiv 86400 + 1).toNat := by
    have heq : (now - ((j.toNat : Int) + 1) * 86400, now - (j.toNat : Int) * 86400) =
        (now - (j + 1) * 86400, now - j * 86400) := by
      rw [Int.toNat_of_nonneg hj0]
    rw [← heq]
    exact List.mem_map.mpr ⟨j.toNat, List.mem_range.mpr hjlt, rfl⟩
  exact ⟨(now - (j + 1) * 86400, now - j * 86400), hmem, by omega, by omega⟩

/-- Invariants of the sample-accumulation fold: key set stays a nodup subset
of the windows, the accumulated total grows by exactly the tokens of the
samples that land in some window, and every touched window contains a sample. -/
theorem dayfold_invariant (windows : List (Int × Int)) :
    ∀ (samples : List (Int × ℚ)) (acc : List ((Int × Int) × ℚ)),
      (acc.map Prod.fst).Nodup →
      (∀ k ∈ acc.map Prod.fst, k ∈ windows) →
      (((samples.foldl (dayStep windows) acc).map Prod.fst).Nodup ∧
       (∀ k ∈ (samples.foldl (dayStep windows) acc).map Prod.fst, k ∈ windows) ∧
       ((samples.foldl (dayStep windows) acc).map Prod.snd).sum =
         (acc.map Prod.snd).sum +
         ((samples.filter (fun s =>
            (windows.find? (fun w => decide (w.1 ≤ s.1 ∧ s.1 < w.2))).isSome)).map
              Prod.snd).sum ∧
       (∀ k ∈ (samples.foldl (dayStep windows) acc).map Prod.fst,
          k ∈ acc.map Prod.fst ∨ ∃ s ∈ samples, k.1 ≤ s.1 ∧ s.1 < k.2))
  | [], acc => by
      intro hnd hsub
      exact ⟨hnd, hsub, by simp, fun k hk => Or.inl hk⟩
  | s :: samples, acc => by
      intro hnd hsub
      rw [List.foldl_cons]
      cases hfind : windows.find? (fun w => decide (w.1 ≤ s.1 ∧ s.1 < w.2)) with
      | none =>
          have hstep : dayStep windows acc s = acc := by
            unfold dayStep; rw [hfind]
          rw [hstep]
          have ih := dayfold_invariant windows samples acc hnd hsub
          refine ⟨ih.1, ih.2.1, ?_, ?_⟩
          · rw [ih.2.2.1, List.filter_cons_of_neg (by rw [hfind]; simp)]
          · intro k hk
            rcases ih.2.2.2 k hk with h | ⟨s', hs', hb⟩
            · exact Or.inl h
            · exact Or.inr ⟨s', List.mem_cons_of_mem _ hs', hb⟩
      | some w =>
          have hw : w ∈ windows := List.mem_of_find?_eq_some hfind
          have hwp : w.1 ≤ s.1 ∧ s.1 < w.2 := by
            have := List.find?_some hfind
            exact of_decide_eq_true this
          have hstep : dayStep windows acc s = addToWindow acc w s.2 := by
            unfold dayStep; rw [hfind]
          rw [hstep]
          have hnd' : ((addToWindow acc w s.2).map Prod.fst).Nodup :=
            addToWindow_keys_nodup acc w s.2 hnd
          have hkeys' : ∀ k ∈ (addToWindow acc w s.2).map Prod.fst, k ∈ windows := by
            intro k hk
            rw [addToWindow_keys] at hk
            by_cases h : (acc.lookup w).isSome
            · rw [if_pos h] at hk; exact hsub k hk
            · rw [if_neg h] at hk
              rcases List.mem_append.mp hk with h1 | h1
              · exact hsub k h1
              · rw [List.mem_singleton.mp h1]; exact hw
          have ih := dayfold_invariant windows samples (addToWindow acc w s.2) hnd' hkeys'
          refine ⟨ih.1, ih.2.1, ?_, ?_⟩
          · rw [ih.2.2.1, addToWindow_sum acc w s.2 hnd,
              List.filter_cons_of_pos (by rw [hfind]; simp)]
            simp only [List.map_cons, List.sum_cons]
            ring
          · intro k hk
            rcases ih.2.2.2 k hk with h | ⟨s', hs', hb⟩
            · rw [addToWindow_keys] at h
              by_cases hsome : (acc.lookup w).isSome
              · rw [if_pos hsome] at h; exact Or.inl h
              · rw [if_neg hsome] at h
                rcases List.mem_append.mp h with h1 | h1
                · exact Or.inl h1
                · rw [List.mem_singleton.mp h1]
                  exact Or.inr ⟨s, by simp, hwp⟩
            · exact Or.inr ⟨s', List.mem_cons_of_mem _ hs', hb⟩

theorem map_lookup_keys {α β : Type*} [BEq α] [LawfulBEq α] (d : β) :
    ∀ l : List (α × β), (l.map Prod.fst).Nodup →
      (l.map Prod.fst).map (fun w => (l.lookup w).getD d) = l.map Prod.snd
  | [], _ => rfl
  | (a, b) :: l, hnd => by
      simp only [List.map_cons]
      rw [lookup_cons, if_pos (by simp)]
      simp only [Option.getD_some]
      congr 1
      have hcongr : (l.map Prod.fst).map (fun w => (((a, b) :: l).lookup w).getD d) =
          (l.map Prod.fst).map (fun w => (l.lookup w).getD d) := by
        refine List.map_congr_left fun w hw => ?_
        have hwa : w ≠ a := fun he => (List.nodup_cons.mp hnd).1 (he ▸ hw)
        rw [lookup_cons, if_neg (by simp [hwa])]
      rw [hcongr, map_lookup_keys d l (List.nodup_cons.mp hnd).2]

theorem aggregate_nil_left (now : Int) (token_values : List ℚ) :
    aggregate_tokens_by_day now [] token_values = ([], []) := by
  cases token_values <;> rfl

theorem aggregate_cons (now t0 : Int) (rest : List Int) (v0 : ℚ) (vrest : List ℚ) :
    aggregate_tokens_by_day now (t0 :: rest) (v0 :: vrest) =
      ((((((t0 :: rest).zip (v0 :: vrest)).foldl (dayStep (windowsFor now ((now - t0).tdiv 86400 + 1).toNat)) []).map Prod.fst).insertionSort byStart).map (fun w => w.1),
       (((((t0 :: rest).zip (v0 :: vrest)).foldl (dayStep (windowsFor now ((now - t0).tdiv 86400 + 1).toNat)) []).map Prod.fst).insertionSort byStart).map (fun w => ((((t0 :: rest).zip (v0 :: vrest)).foldl (dayStep (windowsFor now ((now - t0).tdiv 86400 + 1).toNat)) []).lookup w).getD 0)) := rfl

/-- Claim C5 (amended): for samples fed oldest-first whose timestamps all lie
strictly before the current time, `_aggregate_tokens_by_day` assigns each
sample to exactly one backward-rolling right-open 24-hour window: the emitted
window totals sum to the total of all input tokens, the output is sorted
oldest-to-newest by window start, and every emitted window start is witnessed
by at least one sample inside its 24-hour interval (windows with no samples
are omitted). -/
theorem c5_daily_window_completeness (now : Int) (timestamps : List Int)
    (token_values : List ℚ)
    (hlen : token_values.length = timestamps.length)
    (hsorted : timestamps.Sorted (· ≤ ·))
    (hnow : ∀ t ∈ timestamps, t < now) :
    (aggregate_tokens_by_day now timestamps token_values).2.sum = token_values.sum ∧
    (aggregate_tokens_by_day now timestamps token_values).1.Sorted (· ≤ ·) ∧
    (∀ t ∈ (aggregate_tokens_by_day now timestamps token_values).1,
        ∃ p ∈ timestamps.zip token_values, t ≤ p.1 ∧ p.1 < t + 86400) := by
  cases timestamps with
  | nil =>
      have : token_values = [] := List.length_eq_zero.mp (by simpa using hlen)
      subst this
      rw [aggregate_nil_left]
      exact ⟨rfl, by simp, by simp⟩
  | cons t0 rest =>
      cases token_values with
      | nil => simp at hlen
      | cons v0 vrest =>
          have hinv := dayfold_invariant
            (windowsFor now ((now - t0).tdiv 86400 + 1).toNat)
            ((t0 :: rest).zip (v0 :: vrest)) [] (by simp) (by simp)
          obtain ⟨hnodup, hsub, hsum, horigin⟩ := hinv
          have hall : ∀ s ∈ (t0 :: rest).zip (v0 :: vrest),
              ((windowsFor now ((now - t0).tdiv 86400 + 1).toNat).find?
                (fun w => decide (w.1 ≤ s.1 ∧ s.1 < w.2))).isSome = true := by
            intro s hs
            have hts : s.1 ∈ t0 :: rest := (List.of_mem_zip hs).1
            have h1 : t0 ≤ s.1 := by
              rcases List.mem_cons.mp hts with he | hm
              · rw [he]
              · exact List.rel_of_sorted_cons hsorted _ hm
            have h2 : s.1 < now := hnow _ hts
            rcases windowsFor_exists now t0 s.1 h1 h2 with ⟨w, hw, hb1, hb2⟩
            exact List.find?_isSome.mpr ⟨w, hw, by simp [hb1, hb2]⟩
          have hperm : List.Perm
              (((((t0 :: rest).zip (v0 :: vrest)).foldl
                (dayStep (windowsFor now ((now - t0).tdiv 86400 + 1).toNat)) []).map
                  Prod.fst).insertionSort byStart)
              ((((t0 :: rest).zip (v0 :: vrest)).foldl
                (dayStep (windowsFor now ((now - t0).tdiv 86400 + 1).toNat)) []).map
                  Prod.fst) := List.perm_insertionSort byStart _
          refine ⟨?_, ?_, ?_⟩
          · rw [aggregate_cons]
            simp only
            rw [List.Perm.sum_eq (hperm.map _), map_lookup_keys 0 _ hnodup, hsum]
            rw [List.filter_eq_self.mpr hall]
            have hvlen : (v0 :: vrest).length ≤ (t0 :: rest).length := le_of_eq hlen
            rw [List.map_snd_zip _ _ hvlen]
            simp
          · rw [aggregate_cons]
            simp only
            have hs := List.sorted_insertionSort byStart
              ((((t0 :: rest).zip (v0 :: vrest)).foldl
                (dayStep (windowsFor now ((now - t0).tdiv 86400 + 1).toNat)) []).map
                  Prod.fst)
            exact List.Pairwise.map _ (fun a b hab => hab) hs
          · rw [aggregate_cons]
            simp only
            intro t ht
            rcases List.mem_map.mp ht with ⟨w, hwmem, rfl⟩
            have hwkeys := hperm.mem_iff.mp hwmem
            rcases horigin w hwkeys with h | ⟨s, hs, hb1, hb2⟩
            · simp at h
            · have hwidth := windowsFor_width now _ w (hsub w hwkeys)
              exact ⟨s, hs, hb1, by rw [← hwidth]; exact hb2⟩

/-- Witness for C5 at two samples one day apart. -/
theorem c5_daily_window_completeness_witness :
    ([5, 7] : List ℚ).length = ([1000, 90000] : List Int).length ∧
      ([1000, 90000] : List Int).Sorted (· ≤ ·) ∧
      (∀ t ∈ ([1000, 90000] : List Int), t < 172800) ∧
      (aggregate_tokens_by_day 172800 [1000, 90000] [5, 7]).2.sum =
        ([5, 7] : List ℚ).sum :=
  ⟨by decide, by decide, by decide,
    (c5_daily_window_completeness 172800 [1000, 90000] [5, 7]
      (by decide) (by decide) (by decide)).1⟩

/-- Counterexample to C5 as stated: a single sample stamped exactly at "now"
falls outside every backward-rolling window (they are right-open at `now`),
so it is dropped: the emitted totals sum to 0, not to the input total 5. -/
theorem c5_counterexample :
    aggregate_tokens_by_day 86400 [86400] [5] = ([], []) ∧
      (aggregate_tokens_by_day 86400 [86400] [5]).2.sum = 0 ∧
      ([(5 : ℚ)]).sum = 5 ∧ (0 : ℚ) ≠ 5 := by
  refine ⟨by decide, ?_, by simp, by decide⟩
  rw [show aggregate_tokens_by_day 86400 [86400] [5] = ([], []) from by decide]
  rfl

/-! ### `_chunk_time_range` (TimeRangeChunker, §4.1)

Source lines 429–450: split `[start_time, end_time)` into chunks of at most
`max_data_points * period = 100800 * period` seconds; the `while` loop starts
each chunk where the previous one ended.  The recursion is bounded by
`(end_time - start_time).toNat` iterations, which is exact for any positive
period (every iteration advances `current_start` by at least one second);
the source would loop forever for period ≤ 0, which no caller supplies. -/
def chunkGo (end_time max_duration : Int) : Nat → Int → List (Int × Int)
  | 0, _ => []
  | fuel + 1, current_start =>
      if current_start < end_time then
        (current_start, min (current_start + max_duration) end_time) ::
          chunkGo end_time max_duration fuel
            (min (current_start + max_duration) end_time)
      else []

def chunk_time_range (start_time end_time : Int) (period : Int) :
    List (Int × Int) :=
  chunkGo end_time (100800 * period) (end_time - start_time).toNat start_time

theorem chunkGo_empty (end_time max_duration : Int) (fuel : Nat)
    (current_start : Int) (h : ¬ current_start < end_time) :
    chunkGo end_time max_duration fuel current_start = [] := by
  cases fuel with
  | zero => rfl
  | succ fuel => rw [chunkGo, if_neg h]

theorem chunkGo_head (end_time max_duration : Int) (fuel : Nat)
    (current_start : Int) (h : current_start < end_time) :
    (chunkGo end_time max_duration (fuel + 1) current_start).head? =
      some (current_start, min (current_start + max_duration) end_time) := by
  rw [chunkGo, if_pos h]
  rfl

theorem chunkGo_mem (end_time max_duration : Int) (hD : 0 < max_duration) :
    ∀ (fuel : Nat) (current_start : Int),
      ∀ p ∈ chunkGo end_time max_duration fuel current_start,
        p.1 < p.2 ∧ p.2 ≤ end_time ∧ p.2 - p.1 ≤ max_duration
  | 0, _ => by intro p hp; cases hp
  | fuel + 1, current_start => by
      intro p hp
      by_cases h : current_start < end_time
      · rw [chunkGo, if_pos h] at hp
        rcases List.mem_cons.mp hp with he | hm
        · subst he
          refine ⟨?_, ?_, ?_⟩ <;> simp <;> omega
        · exact chunkGo_mem end_time max_duration hD fuel _ p hm
      · rw [chunkGo_empty _ _ _ _ h] at hp; cases hp

theorem chunkGo_chain (end_time max_duration : Int) :
    ∀ (fuel : Nat) (current_start : Int),
      List.Chain' (fun p q : Int × Int => p.2 = q.1)
        (chunkGo end_time max_duration fuel current_start)
  | 0, _ => List.chain'_nil
  | fuel + 1, current_start => by
      by_cases h : current_start < end_time
      · rw [chunkGo, if_pos h]
        refine List.chain'_cons'.mpr ⟨?_, chunkGo_chain end_time max_duration fuel _⟩
        intro q hq
        cases fuel with
        | zero =>
            rw [show chunkGo end_time max_duration 0
              (min (current_start + max_duration) end_time) = [] from rfl] at hq
            cases hq
        | succ fuel =>
            by_cases h2 : min (current_start + max_duration) end_time < end_time
            · rw [chunkGo_head _ _ _ _ h2] at hq
              cases hq
              rfl
            · rw [chunkGo_empty _ _ _ _ h2] at hq
              simp at hq
      · rw [chunkGo_empty _ _ _ _ h]
        exact List.chain'_nil

theorem chunkGo_sum (end_time max_duration : Int) (hD : 0 < max_duration) :
    ∀ (fuel : Nat) (current_start : Int), current_start ≤ end_time →
      end_time - current_start ≤ (fuel : Int) * max_duration →
      ((chunkGo end_time max_duration fuel current_start).map
        (fun p => p.2 - p.1)).sum = end_time - current_start
  | 0, current_start => by
      intro hle hfuel
      have : current_start = end_time := by simp at hfuel; omega
      rw [chunkGo]
      simp [this]
  | fuel + 1, current_start => by
      intro hle hfuel
      by_cases h : current_start < end_time
      · rw [chunkGo, if_pos h]
        have hnext : min (current_start + max_duration) end_time ≤ end_time :=
          min_le_right _ _
        have hfuel2 : end_time - min (current_start + max_duration) end_time ≤
            (fuel : Int) * max_duration := by
          rcases le_or_lt (current_start + max_duration) end_time with hc | hc
          · rw [min_eq_left hc]
            push_cast at hfuel ⊢
            linarith
          · rw [min_eq_right (le_of_lt hc)]
            simp
            positivity
        rw [List.map_cons, List.sum_cons,
          chunkGo_sum end_time max_duration hD fuel _ hnext hfuel2]
        simp only
        omega
      · have : current_start = end_time := by omega
        rw [chunkGo_empty _ _ _ _ h]
        simp [this]

theorem chunkGo_last (end_time max_duration : Int) (hD : 0 < max_duration) :
    ∀ (fuel : Nat) (current_start : Int), current_start < end_time →
      end_time - current_start ≤ (fuel : Int) * max_duration →
      ∃ a, (chunkGo end_time max_duration fuel current_start).getLast? =
        some (a, end_time)
  | 0, current_start => by
      intro h hfuel
      simp at hfuel
      omega
  | fuel + 1, current_start => by
      intro h hfuel
      rw [chunkGo, if_pos h]
      rcases le_or_lt end_time (current_start + max_duration) with hc | hc
      · have hmin : min (current_start + max_duration) end_time = end_time :=
          min_eq_right hc
        rw [hmin, chunkGo_empty _ _ _ end_time (by omega)]
        exact ⟨current_start, rfl⟩
      · have hmin : min (current_start + max_duration) end_time =
            current_start + max_duration := min_eq_left (le_of_lt hc)
        rw [hmin]
        have hfuel2 : end_time - (current_start + max_duration) ≤
            (fuel : Int) * max_duration := by
          push_cast at hfuel ⊢
          linarith
        rcases chunkGo_last end_time max_duration hD fuel
            (current_start + max_duration) hc hfuel2 with ⟨a, ha⟩
        refine ⟨a, ?_⟩
        cases hc2 : chunkGo end_time max_duration fuel (current_start + max_duration) with
        | nil => rw [hc2] at ha; cases ha
        | cons x l =>
            rw [hc2] at ha
            rw [List.getLast?_cons_cons, ha]

theorem chunkGo_dropLast (end_time max_duration : Int) (hD : 0 < max_duration) :
    ∀ (fuel : Nat) (current_start : Int),
      end_time - current_start ≤ (fuel : Int) * max_duration →
      ∀ p ∈ (chunkGo end_time max_duration fuel current_start).dropLast,
        p.2 - p.1 = max_duration
  | 0, current_start => by
      intro hfuel p hp
      cases hp
  | fuel + 1, current_start => by
      intro hfuel p hp
      by_cases h : current_start < end_time
      · rw [chunkGo, if_pos h] at hp
        rcases le_or_lt end_time (current_start + max_duration) with hc | hc
        · rw [min_eq_right hc, chunkGo_empty _ _ _ end_time (by omega)] at hp
          cases hp
        · rw [min_eq_left (le_of_lt hc)] at hp
          have hfuel2 : end_time - (current_start + max_duration) ≤
              (fuel : Int) * max_duration := by
            push_cast at hfuel ⊢
            linarith
          cases hc2 : chunkGo end_time max_duration fuel
              (current_start + max_duration) with
          | nil => rw [hc2] at hp; cases hp
          | cons x l =>
              rw [hc2, List.dropLast_cons₂] at hp
              rcases List.mem_cons.mp hp with he | hm
              · subst he; simp
              · rw [← hc2] at hm
                exact chunkGo_dropLast end_time max_duration hD fuel
                  (current_start + max_duration) hfuel2 p hm
      · rw [chunkGo_empty _ _ _ _ h] at hp
        cases hp

/-- Claim C4: for every window with start < end and every positive period,
`_chunk_time_range` returns an ordered list of contiguous non-overlapping
sub-windows exactly covering the range: the first chunk starts at the window
start, each chunk ends where the next begins, every chunk is non-empty and at
most 100800·period seconds long, all but the last are exactly that long, the
durations sum to end − start, and the last chunk ends at the window end;
for start ≥ end the result is the empty list. -/
theorem c4_chunking (start_time end_time period : Int) (hp : 0 < period) :
    (start_time < end_time →
      chunk_time_range start_time end_time period ≠ [] ∧
      ((chunk_time_range start_time end_time period).map Prod.fst).head? =
        some start_time ∧
      ((chunk_time_range start_time end_time period).map Prod.snd).getLast? =
        some end_time ∧
      List.Chain' (fun p q : Int × Int => p.2 = q.1)
        (chunk_time_range start_time end_time period) ∧
      (∀ p ∈ chunk_time_range start_time end_time period,
          p.1 < p.2 ∧ p.2 - p.1 ≤ 100800 * period) ∧
      ((chunk_time_range start_time end_time period).map
        (fun p => p.2 - p.1)).sum = end_time - start_time ∧
      (∀ p ∈ (chunk_time_range start_time end_time period).dropLast,
          p.2 - p.1 = 100800 * period)) ∧
    (end_time ≤ start_time → chunk_time_range start_time end_time period = []) := by
  have hD : 0 < 100800 * period := by positivity
  constructor
  · intro hlt
    have hfuel : end_time - start_time ≤
        (((end_time - start_time).toNat : Int)) * (100800 * period) := by
      have h1 : ((end_time - start_time).toNat : Int) = end_time - start_time := by
        omega
      rw [h1]
      exact le_mul_of_one_le_right (by omega) (by omega)
    obtain ⟨f, hf⟩ : ∃ f, (end_time - start_time).toNat = f + 1 :=
      ⟨(end_time - start_time).toNat - 1, by omega⟩
    have hhead : (chunk_time_range start_time end_time period).head? =
        some (start_time, min (start_time + 100800 * period) end_time) := by
      rw [chunk_time_range, hf]
      exact chunkGo_head _ _ _ _ hlt
    have hne : chunk_time_range start_time end_time period ≠ [] := by
      intro hnil
      rw [hnil] at hhead
      cases hhead
    refine ⟨hne, ?_, ?_, ?_, ?_, ?_, ?_⟩
    · rw [List.head?_map, hhead]
      rfl
    · rcases chunkGo_last end_time (100800 * period) hD
          (end_time - start_time).toNat start_time hlt hfuel with ⟨a, ha⟩
      rw [List.getLast?_map, chunk_time_range, ha]
      rfl
    · exact chunkGo_chain _ _ _ _
    · intro p hpmem
      exact ⟨(chunkGo_mem _ _ hD _ _ p hpmem).1, (chunkGo_mem _ _ hD _ _ p hpmem).2.2⟩
    · exact chunkGo_sum _ _ hD _ _ (le_of_lt hlt) hfuel
    · exact chunkGo_dropLast _ _ hD _ _ hfuel
  · intro hge
    exact chunkGo_empty _ _ _ _ (by omega)

/-- Witness for C4 at the spec's own example: a 100-day window at 300 s
granularity. -/
theorem c4_chunking_witness :
    (0 : Int) < 300 ∧ (0 : Int) < 8640000 ∧
      ((chunk_time_range 0 8640000 300).map (fun p => p.2 - p.1)).sum =
        8640000 - 0 :=
  ⟨by decide, by decide,
    ((c4_chunking 0 8640000 300 (by decide)).1 (by decide)).2.2.2.2.2.1⟩

/-! ### `_process_combined_time_series` (WindowSlicer output / derived metrics, §4.5–4.6)

Source lines 23–154.  The function receives the sliced, aligned per-metric
value arrays (`all_data`), the shared sliced timestamp list, the granularity
period and the display-window key.  It first sorts the timestamps and applies
the same index permutation to every same-length metric array, then derives
TPM (both token readings non-null), the raw token pass-throughs, TPD (daily
aggregation of the TPM-filtered totals, absent for "1hour"), RPM/Invocations,
and gap-filled pass-throughs for throttles/errors/latency; an entirely empty
result is replaced by the structured empty bundle. -/
structure AllData where
  invocations : List (Option ℚ)
  input_tokens : List (Option ℚ)
  output_tokens : List (Option ℚ)
  throttles : List (Option ℚ)
  client_errors : List (Option ℚ)
  server_errors : List (Option ℚ)
  latency : List (Option ℚ)
deriving DecidableEq

/-- `_empty_time_series` (source lines 485–494). -/
def empty_time_series (time_period : String) : List (String × Series) :=
  [("RPM", ⟨[], []⟩), ("TPM", ⟨[], []⟩), ("InvocationThrottles", ⟨[], []⟩)] ++
    (if time_period ≠ "1hour" then [("TPD", ⟨[], []⟩)] else [])

/-- Comparison used by `sorted(range(len(timestamps)), key=lambda i: timestamps[i])`;
Python's stable sort with this key is insertion sort on indices. -/
def sortIndexRel (timestamps : List Int) (i j : Nat) : Prop :=
  timestamps.get! i ≤ timestamps.get! j

instance (timestamps : List Int) : DecidableRel (sortIndexRel timestamps) :=
  fun i j => inferInstanceAs (Decidable (timestamps.get! i ≤ timestamps.get! j))

/-- The loop of source lines 49–55: indices where BOTH the input-token and the
output-token reading exist, paired with the total `input + output`.  The
bounds guards (`if i < len(...)`) are the `get?`/`getD` reads. -/
def validTokenPairs (timestamps : List Int)
    (input_tokens output_tokens : List (Option ℚ)) : List (Int × ℚ) :=
  (List.range timestamps.length).filterMap (fun i =>
    match (input_tokens.get? i).getD none, (output_tokens.get? i).getD none with
    | some a, some b => some (timestamps.get! i, a + b)
    | _, _ => none)

def fillSeries (timestamps : List Int) (values : List (Option ℚ))
    (period : Int) : Series :=
  ⟨(fill_missing_timestamps timestamps values period).1,
   (fill_missing_timestamps timestamps values period).2⟩

def process_combined_time_series (now : Int) (all_data : AllData)
    (timestamps : List Int) (period : Int) (time_period : String) :
    List (String × Series) :=
  let period_minutes : ℚ := (period : ℚ) / 60
  -- sort block (lines 31–38); when `timestamps` is empty the block is skipped
  -- in the source, and here every piece below degenerates to the same value
  let sorted_indices :=
    (List.range timestamps.length).insertionSort (sortIndexRel timestamps)
  let ts1 := sorted_indices.map (fun i => timestamps.get! i)
  let reorder : List (Option ℚ) → List (Option ℚ) := fun arr =>
    if arr ≠ [] ∧ arr.length = timestamps.length then
      sorted_indices.map (fun i => arr.get! i)
    else arr
  let input_tokens := reorder all_data.input_tokens
  let output_tokens := reorder all_data.output_tokens
  let invocations := reorder all_data.invocations
  let throttles := reorder all_data.throttles
  let client_errors := reorder all_data.client_errors
  let server_errors := reorder all_data.server_errors
  let latency := reorder all_data.latency
  let tokenPart : List (String × Series) :=
    if input_tokens ≠ [] ∧ output_tokens ≠ [] then
      let validPairs := validTokenPairs ts1 input_tokens output_tokens
      let total_tokens := validPairs.map Prod.snd
      let valid_timestamps := validPairs.map Prod.fst
      (if total_tokens ≠ [] then
        [("TPM", fillSeries valid_timestamps
            ((total_tokens.map (fun t => t / period_minutes)).map some) period),
         ("InputTokenCount", fillSeries ts1 input_tokens period),
         ("OutputTokenCount", fillSeries ts1 output_tokens period)]
       else []) ++
      (if time_period ≠ "1hour" ∧ total_tokens ≠ [] then
        [("TPD",
          ⟨(aggregate_tokens_by_day now valid_timestamps total_tokens).1,
           (aggregate_tokens_by_day now valid_timestamps total_tokens).2.map some⟩)]
       else [])
    else []
  let rpmPart : List (String × Series) :=
    if invocations ≠ [] then
      -- lines 95–100: keep only non-null invocation readings
      let rpmPairs := (List.range invocations.length).filterMap (fun i =>
        match invocations.get! i with
        | some inv => some (ts1.get! i, inv / period_minutes)
        | none => none)
      if rpmPairs ≠ [] then
        [("RPM", fillSeries (rpmPairs.map Prod.fst)
            ((rpmPairs.map Prod.snd).map some) period),
         ("Invocations", fillSeries ts1 invocations period)]
      else []
    else []
  let simplePart : String → List (Option ℚ) → List (String × Series) :=
    fun key arr => if arr ≠ [] then [(key, fillSeries ts1 arr period)] else []
  let result := tokenPart ++ rpmPart ++
    simplePart "InvocationThrottles" throttles ++
    simplePart "InvocationClientErrors" client_errors ++
    simplePart "InvocationServerErrors" server_errors ++
    simplePart "InvocationLatency" latency
  if result = [] then empty_time_series time_period else result

theorem map_get!_range {α : Type*} [Inhabited α] (l : List α) :
    (List.range l.length).map (fun i => l.get! i) = l := by
  refine List.ext_getElem (by simp) ?_
  intro i h1 h2
  simp only [List.getElem_map, List.getElem_range, List.get!_eq_getElem!]
  exact getElem!_pos l i h2

theorem sortIndices_eq_range (timestamps : List Int)
    (hsort : timestamps.Pairwise (· < ·)) :
    (List.range timestamps.length).insertionSort (sortIndexRel timestamps) =
      List.range timestamps.length := by
  refine List.Sorted.insertionSort_eq ?_
  rw [List.Sorted, List.pairwise_iff_get]
  intro i j hij
  have hi : (List.range timestamps.length).get i = i.1 := by simp
  have hj : (List.range timestamps.length).get j = j.1 := by simp
  rw [hi, hj]
  unfold sortIndexRel
  have hilen : i.1 < timestamps.length := by
    have := i.2; simpa using this
  have hjlen : j.1 < timestamps.length := by
    have := j.2; simpa using this
  have hlt : timestamps.get ⟨i.1, hilen⟩ ≤ timestamps.get ⟨j.1, hjlen⟩ := by
    have := List.pairwise_iff_get.mp hsort ⟨i.1, hilen⟩ ⟨j.1, hjlen⟩ (by simpa using hij)
    exact le_of_lt this
  rw [List.get!_eq_getElem!, List.get!_eq_getElem!,
    getElem!_pos timestamps i.1 hilen, getElem!_pos timestamps j.1 hjlen]
  simpa [List.get_eq_getElem] using hlt

theorem reorder_eq_self (timestamps : List Int)
    (hsort : timestamps.Pairwise (· < ·)) (arr : List (Option ℚ)) :
    (if arr ≠ [] ∧ arr.length = timestamps.length then
        ((List.range timestamps.length).insertionSort
          (sortIndexRel timestamps)).map (fun i => arr.get! i)
      else arr) = arr := by
  by_cases h : arr ≠ [] ∧ arr.length = timestamps.length
  · rw [if_pos h, sortIndices_eq_range timestamps hsort, ← h.2, map_get!_range]
  · rw [if_neg h]

theorem ts1_eq_self (timestamps : List Int)
    (hsort : timestamps.Pairwise (· < ·)) :
    ((List.range timestamps.length).insertionSort
      (sortIndexRel timestamps)).map (fun i => timestamps.get! i) = timestamps := by
  rw [sortIndices_eq_range timestamps hsort, map_get!_range]

theorem validTokenPairs_ne_nil_inputs {timestamps : List Int}
    {input_tokens output_tokens : List (Option ℚ)}
    (hval : validTokenPairs timestamps input_tokens output_tokens ≠ []) :
    input_tokens ≠ [] ∧ output_tokens ≠ [] := by
  obtain ⟨p, hp⟩ := List.exists_mem_of_ne_nil _ hval
  rcases List.mem_filterMap.mp hp with ⟨i, _, hf⟩
  cases hin0 : (input_tokens.get? i).getD none with
  | none =>
      cases hout0 : (output_tokens.get? i).getD none with
      | none => rw [hin0, hout0] at hf; cases hf
      | some b => rw [hin0, hout0] at hf; cases hf
  | some a =>
      cases hout0 : (output_tokens.get? i).getD none with
      | none => rw [hin0, hout0] at hf; cases hf
      | some b =>
          constructor
          · intro hnil
            rw [hnil] at hin0
            simp at hin0
          · intro hnil
            rw [hnil] at hout0
            simp at hout0

theorem process_tpm_lookup (now : Int) (ad : AllData) (timestamps : List Int)
    (period : Int) (tp : String)
    (hsort : timestamps.Pairwise (· < ·))
    (hval : validTokenPairs timestamps ad.input_tokens ad.output_tokens ≠ []) :
    (process_combined_time_series now ad timestamps period tp).lookup "TPM" =
      some (fillSeries
        ((validTokenPairs timestamps ad.input_tokens ad.output_tokens).map Prod.fst)
        ((((validTokenPairs timestamps ad.input_tokens ad.output_tokens).map
            Prod.snd).map (fun t => t / ((period : ℚ) / 60))).map some) period) := by
  obtain ⟨hin, hout⟩ := validTokenPairs_ne_nil_inputs hval
  unfold process_combined_time_series
  simp only [reorder_eq_self timestamps hsort, ts1_eq_self timestamps hsort]
  simp [hin, hout, hval, lookup_cons]

theorem mem_ite_nil {α : Type*} {c : Prop} [Decidable c] {l : List α} {x : α}
    (h : x ∈ (if c then l else [])) : x ∈ l := by
  by_cases hc : c
  · rwa [if_pos hc] at h
  · rw [if_neg hc] at h; cases h

theorem mem_ite_nil_iff {α : Type*} {c : Prop} [Decidable c] {l : List α} {x : α} :
    (x ∈ (if c then l else [])) ↔ c ∧ x ∈ l := by
  by_cases hc : c <;> simp [hc]

theorem process_tpd_lookup (now : Int) (ad : AllData) (timestamps : List Int)
    (period : Int) (tp : String)
    (hsort : timestamps.Pairwise (· < ·))
    (hval : validTokenPairs timestamps ad.input_tokens ad.output_tokens ≠ [])
    (htp : tp ≠ "1hour") :
    (process_combined_time_series now ad timestamps period tp).lookup "TPD" =
      some ⟨(aggregate_tokens_by_day now
          ((validTokenPairs timestamps ad.input_tokens ad.output_tokens).map Prod.fst)
          ((validTokenPairs timestamps ad.input_tokens ad.output_tokens).map Prod.snd)).1,
        (aggregate_tokens_by_day now
          ((validTokenPairs timestamps ad.input_tokens ad.output_tokens).map Prod.fst)
          ((validTokenPairs timestamps ad.input_tokens ad.output_tokens).map Prod.snd)).2.map
            some⟩ := by
  obtain ⟨hin, hout⟩ := validTokenPairs_ne_nil_inputs hval
  unfold process_combined_time_series
  simp only [reorder_eq_self timestamps hsort, ts1_eq_self timestamps hsort]
  simp [hin, hout, hval, htp, lookup_cons]

theorem lookup_ite_nil_result {tp : String} {R : List (String × Series)}
    (hkeys : ∀ p ∈ R, p.1 ≠ "TPM") :
    ((if R = [] then empty_time_series tp else R).lookup "TPM") = none ∨
    ((if R = [] then empty_time_series tp else R).lookup "TPM") = some ⟨[], []⟩ := by
  by_cases h : R = []
  · right
    rw [if_pos h]
    simp [empty_time_series, lookup_cons]
  · left
    rw [if_neg h]
    exact lookup_eq_none_of_not_mem hkeys

theorem process_tpm_lookup_empty (now : Int) (ad : AllData) (timestamps : List Int)
    (period : Int) (tp : String)
    (hsort : timestamps.Pairwise (· < ·))
    (hval : validTokenPairs timestamps ad.input_tokens ad.output_tokens = []) :
    (process_combined_time_series now ad timestamps period tp).lookup "TPM" = none ∨
    (process_combined_time_series now ad timestamps period tp).lookup "TPM" =
      some ⟨[], []⟩ := by
  unfold process_combined_time_series
  simp only [reorder_eq_self timestamps hsort, ts1_eq_self timestamps hsort]
  rw [show (validTokenPairs timestamps ad.input_tokens ad.output_tokens).map
    Prod.snd = [] from by rw [hval]; rfl]
  simp only [ne_eq, not_true_eq_false, if_false, and_false, List.append_nil,
    List.nil_append, ite_self]
  refine lookup_ite_nil_result ?_
  intro p hp
  simp only [List.mem_append, mem_ite_nil_iff, List.mem_cons, List.mem_singleton,
    List.not_mem_nil, or_false] at hp
  rcases hp with (((⟨h1, h2, he | he⟩ | ⟨h1, he⟩) | ⟨h1, he⟩) | ⟨h1, he⟩) | ⟨h1, he⟩ <;>
    subst he <;> simp

theorem zip_map_fst_snd {α β γ : Type*} (g : β → γ) :
    ∀ l : List (α × β),
      (l.map Prod.fst).zip ((l.map Prod.snd).map g) = l.map (fun x => (x.1, g x.2))
  | [] => rfl
  | a :: l => by simpa using zip_map_fst_snd g l

/-- Membership in `validTokenPairs` comes from an index where both token
readings are non-null. -/
theorem validTokenPairs_mem {timestamps : List Int}
    {input_tokens output_tokens : List (Option ℚ)} {x : Int × ℚ}
    (hx : x ∈ validTokenPairs timestamps input_tokens output_tokens) :
    ∃ i, timestamps.get? i = some x.1 ∧
      (∃ a b, input_tokens.get? i = some (some a) ∧
        output_tokens.get? i = some (some b) ∧ x.2 = a + b) := by
  rcases List.mem_filterMap.mp hx with ⟨i, hi, hf⟩
  have hilen : i < timestamps.length := List.mem_range.mp hi
  cases hin0 : (input_tokens.get? i).getD none with
  | none =>
      cases hout0 : (output_tokens.get? i).getD none with
      | none => rw [hin0, hout0] at hf; cases hf
      | some b => rw [hin0, hout0] at hf; cases hf
  | some a =>
      cases hout0 : (output_tokens.get? i).getD none with
      | none => rw [hin0, hout0] at hf; cases hf
      | some b =>
          rw [hin0, hout0] at hf
          have hx2 : x = (timestamps.get! i, a + b) := by
            cases hf; rfl
          refine ⟨i, ?_, a, b, ?_, ?_, ?_⟩
          · rw [hx2]
            simp only [List.get!_eq_getElem!, getElem!_pos timestamps i hilen]
            rw [List.get?_eq_getElem?]
            exact (List.getElem?_eq_getElem hilen)
          · cases hg : input_tokens.get? i with
            | none => rw [hg] at hin0; cases hin0
            | some u => rw [hg] at hin0; simp at hin0; rw [hin0]
          · cases hg : output_tokens.get? i with
            | none => rw [hg] at hout0; cases hout0
            | some u => rw [hg] at hout0; simp at hout0; rw [hout0]
          · rw [hx2]

/-- Claim C6: TPM is defined at a timestamp only when both the input-token
and the output-token readings there are non-null, with value
`(input + output) / (period/60)`; a timestamp where only one of the two is
non-null contributes no TPM value. -/
theorem c6_tpm_null_rule (now : Int) (ad : AllData) (timestamps : List Int)
    (period : Int) (tp : String)
    (hsort : timestamps.Pairwise (· < ·)) :
    (∀ s, (process_combined_time_series now ad timestamps period tp).lookup "TPM" =
        some s →
      ∀ t v, (t, some v) ∈ s.timestamps.zip s.values →
        ∃ i a b, timestamps.get? i = some t ∧
          ad.input_tokens.get? i = some (some a) ∧
          ad.output_tokens.get? i = some (some b) ∧
          v = (a + b) / ((period : ℚ) / 60)) ∧
    (∀ s, (process_combined_time_series now ad timestamps period tp).lookup "TPM" =
        some s →
      ∀ i, ∀ hi : i < timestamps.length,
        ((ad.input_tokens.get? i).getD none = none ∨
         (ad.output_tokens.get? i).getD none = none) →
        ∀ v, (timestamps.get ⟨i, hi⟩, some v) ∉ s.timestamps.zip s.values) := by
  have main : ∀ s,
      (process_combined_time_series now ad timestamps period tp).lookup "TPM" =
        some s →
      ∀ t v, (t, some v) ∈ s.timestamps.zip s.values →
        ∃ i a b, timestamps.get? i = some t ∧
          ad.input_tokens.get? i = some (some a) ∧
          ad.output_tokens.get? i = some (some b) ∧
          v = (a + b) / ((period : ℚ) / 60) := by
    intro s hs t v hmem
    by_cases hval : validTokenPairs timestamps ad.input_tokens ad.output_tokens = []
    · rcases process_tpm_lookup_empty now ad timestamps period tp hsort hval with h | h
      · rw [hs] at h; cases h
      · rw [hs] at h
        obtain rfl : s = ⟨[], []⟩ := by cases h; rfl
        simp at hmem
    · rw [process_tpm_lookup now ad timestamps period tp hsort hval] at hs
      obtain rfl : s = fillSeries
          ((validTokenPairs timestamps ad.input_tokens ad.output_tokens).map Prod.fst)
          ((((validTokenPairs timestamps ad.input_tokens ad.output_tokens).map
            Prod.snd).map (fun x => x / ((period : ℚ) / 60))).map some) period := by
        cases hs; rfl
      have hprov := fill_some_provenance _ _ period t (some v) hmem (by simp)
      rw [List.map_map,
        zip_map_fst_snd (some ∘ (fun x => x / ((period : ℚ) / 60)))] at hprov
      rcases List.mem_map.mp hprov with ⟨x, hx, hxe⟩
      obtain ⟨hxt, hxv⟩ := Prod.mk.inj hxe
      simp only [Function.comp_apply] at hxv
      rcases validTokenPairs_mem hx with ⟨i, hts, a, b, hina, houtb, hab⟩
      refine ⟨i, a, b, by rw [← hxt]; exact hts, hina, houtb, ?_⟩
      have hv : some (x.2 / ((period : ℚ) / 60)) = some v := hxv
      cases hv
      rw [hab]
  refine ⟨main, ?_⟩
  intro s hs i hi hnull v hmem
  rcases main s hs (timestamps.get ⟨i, hi⟩) v hmem with ⟨j, a, b, hj, hina, houtb, _⟩
  have hjlen : j < timestamps.length := by
    by_contra hge
    rw [List.get?_eq_getElem?, List.getElem?_eq_none (by omega)] at hj
    cases hj
  have hnd : timestamps.Nodup := hsort.imp ne_of_lt
  have hij : timestamps.get ⟨j, hjlen⟩ = timestamps.get ⟨i, hi⟩ := by
    rw [List.get?_eq_getElem?, List.getElem?_eq_getElem hjlen] at hj
    simpa [List.get_eq_getElem] using hj
  have : j = i := by
    have := List.Nodup.get_inj_iff hnd (i := ⟨j, hjlen⟩) (j := ⟨i, hi⟩)
    have h2 := this.mp hij
    simpa using h2
  subst this
  rcases hnull with h | h
  · rw [hina] at h; simp at h
  · rw [houtb] at h; simp at h

/-- The worked example of claim C6: input_tokens null at t2, output_tokens
null at t3, both present at t1 = 0 (period 60 s, display window "7days"). -/
def c6ExampleData : AllData :=
  ⟨[], [some 5, none, some 7], [some 2, some 1, none], [], [], [], []⟩

/-- Witness for C6 at the claim's example: TPM is defined only at t1 = 0 with
value (5+2)/(60/60) = 7, and t2 = 60, t3 = 120 are absent from TPM. -/
theorem c6_tpm_null_rule_witness :
    (([0, 60, 120] : List Int).Pairwise (· < ·)) ∧
    ((process_combined_time_series 86400 c6ExampleData [0, 60, 120] 60
        "7days").lookup "TPM" =
      some ⟨[0], [some (((5 : ℚ) + 2) / (((60 : Int) : ℚ) / 60))]⟩) ∧
    (∃ i a b, ([0, 60, 120] : List Int).get? i = some 0 ∧
      c6ExampleData.input_tokens.get? i = some (some a) ∧
      c6ExampleData.output_tokens.get? i = some (some b) ∧
      ((5 : ℚ) + 2) / (((60 : Int) : ℚ) / 60) = (a + b) / (((60 : Int) : ℚ) / 60)) := by
  have hsort : (([0, 60, 120] : List Int)).Pairwise (· < ·) := by decide
  have hval : validTokenPairs [0, 60, 120] c6ExampleData.input_tokens
      c6ExampleData.output_tokens ≠ [] := by decide
  have hlk := process_tpm_lookup 86400 c6ExampleData [0, 60, 120] 60 "7days"
    hsort hval
  refine ⟨hsort, ?_, ?_⟩
  · rw [hlk]
    rfl
  · exact (c6_tpm_null_rule 86400 c6ExampleData [0, 60, 120] 60 "7days"
      hsort).1 _ hlk 0 _ (List.mem_singleton.mpr rfl)

/-- Claim-side definition, following the words of claim C1 / spec §4.6: the
"raw token totals of the sliced window" — every timestamp with at least one
non-null token reading contributes the sum of its non-null readings (a null
side contributes nothing).  This is what the claim says TPD is aggregated
from; the source instead feeds the TPM-filtered totals to the aggregator. -/
def specRawTokenPairs (timestamps : List Int)
    (input_tokens output_tokens : List (Option ℚ)) : List (Int × ℚ) :=
  (List.range timestamps.length).filterMap (fun i =>
    match (input_tokens.get? i).getD none, (output_tokens.get? i).getD none with
    | none, none => none
    | ia, ob => some (timestamps.get! i, ia.getD 0 + ob.getD 0))

/-- Claim C1 (amended): for every sliced dataset with strictly sorted
timestamps and every display window other than "1hour", the TPD series is
produced by the daily aggregator from the *TPM-filtered* token totals — only
timestamps where BOTH the input-token and the output-token readings are
non-null contribute, each with total input + output; a timestamp with a null
on either side contributes nothing to the daily totals (contrary to the
original claim, which said such a timestamp still contributes its non-null
reading). -/
theorem c1_tpd_from_filtered_totals (now : Int) (ad : AllData)
    (timestamps : List Int) (period : Int) (tp : String)
    (hsort : timestamps.Pairwise (· < ·))
    (hval : validTokenPairs timestamps ad.input_tokens ad.output_tokens ≠ [])
    (htp : tp ≠ "1hour") :
    (process_combined_time_series now ad timestamps period tp).lookup "TPD" =
      some ⟨(aggregate_tokens_by_day now
          ((validTokenPairs timestamps ad.input_tokens ad.output_tokens).map Prod.fst)
          ((validTokenPairs timestamps ad.input_tokens ad.output_tokens).map Prod.snd)).1,
        (aggregate_tokens_by_day now
          ((validTokenPairs timestamps ad.input_tokens ad.output_tokens).map Prod.fst)
          ((validTokenPairs timestamps ad.input_tokens ad.output_tokens).map Prod.snd)).2.map
            some⟩ :=
  process_tpd_lookup now ad timestamps period tp hsort hval htp

/-- Witness for C1 (amended) at the C6 example dataset. -/
theorem c1_tpd_from_filtered_totals_witness :
    (([0, 60, 120] : List Int).Pairwise (· < ·)) ∧
    validTokenPairs [0, 60, 120] c6ExampleData.input_tokens
      c6ExampleData.output_tokens ≠ [] ∧
    ("7days" : String) ≠ "1hour" ∧
    ((process_combined_time_series 86400 c6ExampleData [0, 60, 120] 60
        "7days").lookup "TPD" = some ⟨[0], [some ((5 : ℚ) + 2)]⟩) := by
  refine ⟨by decide, by decide, by decide, ?_⟩
  rw [c1_tpd_from_filtered_totals 86400 c6ExampleData [0, 60, 120] 60 "7days"
    (by decide) (by decide) (by decide)]
  rfl

/-- The dataset refuting C1 as stated: at t2 = 60 the input reading is null
but the output reading is 100, so the claim says t2 contributes 100 to the
daily totals; the code drops t2 entirely. -/
def c1CounterData : AllData :=
  ⟨[], [some 5, none], [some 2, some 100], [], [], [], []⟩

/-- Counterexample to C1 as stated: the code's TPD for this sliced dataset is
the daily aggregation of the TPM-filtered totals (just 5+2 = 7 at t1), while
aggregating the raw token totals of the window — as the claim demands — would
also count t2's non-null output reading 100, giving 107. -/
theorem c1_counterexample :
    ((process_combined_time_series 86400 c1CounterData [0, 60] 60
        "7days").lookup "TPD" = some ⟨[0], [some ((5 : ℚ) + 2)]⟩) ∧
    specRawTokenPairs [0, 60] c1CounterData.input_tokens
        c1CounterData.output_tokens =
      [((0 : Int), (5 : ℚ) + 2), ((60 : Int), (0 : ℚ) + 100)] ∧
    aggregate_tokens_by_day 86400 [0, 60] [(5 : ℚ) + 2, (0 : ℚ) + 100] =
      ([0], [((5 : ℚ) + 2) + ((0 : ℚ) + 100)]) ∧
    (some (⟨[0], [some ((5 : ℚ) + 2)]⟩ : Series) ≠
      some ⟨[0], [some (((5 : ℚ) + 2) + ((0 : ℚ) + 100))]⟩) := by
  refine ⟨?_, rfl, rfl, ?_⟩
  · rw [process_tpd_lookup 86400 c1CounterData [0, 60] 60 "7days"
      (by decide) (by decide) (by decide)]
    rfl
  · intro h
    have h2 : ((5 : ℚ) + 2) = ((5 : ℚ) + 2) + ((0 : ℚ) + 100) := by
      have h3 := Option.some.inj h
      have h4 : (⟨[0], [some ((5 : ℚ) + 2)]⟩ : Series).values =
          (⟨[0], [some (((5 : ℚ) + 2) + ((0 : ℚ) + 100))]⟩ : Series).values := by
        rw [h3]
      simpa using h4
    norm_num at h2

/-! ### `_fetch_raw_data` and `fetch_all_data_mixed_granularity`
(ParallelFetchCoordinator / TimeSeriesAligner, §4.2–4.3)

Source lines 156–355.  The CloudWatch client is modelled as an explicit
collaborator `getMetricData model_id period chunk_start chunk_end`, returning
per metric id the parallel `Timestamps`/`Values` lists of one
`get_metric_data` call, or an exception (`Except.error`).  Threading only
affects scheduling/progress logging — each (model, granularity) task builds
its result independently from its own collaborator calls — so the coordinator
is modelled as the deterministic nested map below; the chunk-count/progress
accounting (lines 206–214, 297–301) is logging-only and not modelled, and the
per-model `'end_time'` entry (line 238) is carried implicitly by `now`. -/
abbrev ChunkResponse := List (String × (List Int × List ℚ))

structure RawData where
  timestamps : List Int
  data : List (String × List (Option ℚ))
  period : Int
deriving DecidableEq

def metricIds : List String :=
  ["invocations", "input_tokens", "output_tokens", "throttles",
   "client_errors", "server_errors", "latency"]

/-- The fully-structured empty result substituted when a task fails
(source lines 246–258 and 343–355). -/
def emptyRawData (period : Int) : RawData :=
  ⟨[], metricIds.map (fun m => (m, [])), period⟩

/-- `all_data_with_timestamps[metric_id][...].extend(...)` for one returned
metric (source lines 304–308); response ids are the seven requested ones. -/
def extendMetric (acc : List (String × (List Int × List ℚ))) (mid : String)
    (tss : List Int) (vls : List ℚ) : List (String × (List Int × List ℚ)) :=
  acc.map (fun p => if p.1 = mid then (p.1, (p.2.1 ++ tss, p.2.2 ++ vls)) else p)

/-- The sequential per-chunk fetch loop (source lines 280–308): the first
collaborator error aborts the remaining chunks of this task. -/
def collectChunks (getMetricData : Int → Int → Except String ChunkResponse)
    (chunks : List (Int × Int)) :
    Except String (List (String × (List Int × List ℚ))) :=
  chunks.foldlM (fun acc c =>
    (getMetricData c.1 c.2).map (fun response =>
      response.foldl (fun a r =>
        if r.2.2 ≠ [] ∧ r.2.1 ≠ [] then extendMetric a r.1 r.2.1 r.2.2 else a)
        acc))
    (metricIds.map (fun m => (m, ([], []))))

/-- `sorted(list(set(...)))`. -/
def dedupSort (l : List Int) : List Int := (l.dedup).insertionSort (· ≤ ·)

def fetch_raw_data
    (getMetricData : String → Int → Int → Int → Except String ChunkResponse)
    (model_id : String) (start_time end_time : Int) (period : Int) : RawData :=
  match collectChunks (getMetricData model_id period)
      (chunk_time_range start_time end_time period) with
  | .error _ => emptyRawData period
  | .ok collected =>
      let all_timestamps := dedupSort (collected.foldl (fun acc p => acc ++ p.2.1) [])
      -- per-metric `ts_to_value` dict (line 321): a later duplicate timestamp
      -- overwrites an earlier one, hence the reversed-zip lookup; `.get(ts)`
      -- yields None for missing timestamps (line 323)
      let all_data := collected.map (fun p =>
        (p.1, all_timestamps.map (fun ts => ((p.2.1.zip p.2.2).reverse.lookup ts))))
      -- the re-sort of the already sorted, duplicate-free union
      -- (source lines 329–334) is a no-op and is omitted
      ⟨all_timestamps, all_data, period⟩

/-- The display-window → days dict of source line 192, with the day counts
converted to whole seconds (days × 86400; "1hour" = 1/24 day = 3600 s) to
keep the time model integral.  An unknown key raises `KeyError`. -/
def daysSecondsFor (time_period : String) : Except String Int :=
  match ([("1hour", 3600), ("1day", 86400), ("7days", 604800),
      ("14days", 1209600), ("30days", 2592000)] :
      List (String × Int)).lookup time_period with
  | some d => .ok d
  | none => .error ("KeyError: " ++ time_period)

/-- `period_ranges[period].append(days)` with dict-of-lists insertion order. -/
def addDays (acc : List (Int × List Int)) (period : Int) (d : Int) :
    List (Int × List Int) :=
  if (acc.lookup period).isSome then
    acc.map (fun p => if p.1 = period then (p.1, p.2 ++ [d]) else p)
  else acc ++ [(period, [d])]

/-- The `period_ranges` loop (source lines 187–193); the `KeyError` of an
unknown display-window key aborts it before any fetch work is built. -/
def periodRanges (granularity_config : List (String × Int)) :
    Except String (List (Int × List Int)) :=
  granularity_config.foldlM (fun acc tpp =>
    (daysSecondsFor tpp.1).map (fun d => addDays acc tpp.2 d)) []

def fetch_all_data_mixed_granularity
    (getMetricData : String → Int → Int → Int → Except String ChunkResponse)
    (model_ids : List String) (granularity_config : List (String × Int))
    (now : Int) :
    Except String (List (String × List (Int × RawData))) :=
  (periodRanges granularity_config).map (fun ranges =>
    -- fetch_configs (lines 196–204); the day spans are positive, so
    -- `foldl max 0` is Python's `max` of the non-empty span list
    let fetch_configs := ranges.map (fun pr => (pr.1, (now - pr.2.foldl max 0, now)))
    model_ids.map (fun m =>
      (m, fetch_configs.map (fun pc =>
        (pc.1, fetch_raw_data getMetricData m pc.2.1 pc.2.2 pc.1)))))

deriving instance DecidableEq for Except

/-- A probe collaborator whose response marks that a metrics-source call was
made: it returns invocation count 42 at the chunk start. -/
def gProbe : String → Int → Int → Int → Except String ChunkResponse :=
  fun _ _ cs _ => .ok [("invocations", ([cs], [42]))]

/-- Counterexample to C3 as stated: the granularity configuration
`{"1day": 3600, "7days": 60}` is not monotonically coarsening (the longer
"7days" window has period 60 < 3600 of the shorter "1day" window), yet
`fetch_all_data_mixed_granularity` raises no error: it schedules and performs
metrics-source calls (the probe's data point 42 appears in the result) and
returns a normal dataset. -/
theorem c3_counterexample :
    fetch_all_data_mixed_granularity gProbe ["m"]
        [("1day", 3600), ("7days", 60)] 0 =
      .ok [("m",
        [(3600, ⟨[-86400],
          [("invocations", [some 42]), ("input_tokens", [none]),
           ("output_tokens", [none]), ("throttles", [none]),
           ("client_errors", [none]), ("server_errors", [none]),
           ("latency", [none])], 3600⟩),
         (60, ⟨[-604800],
          [("invocations", [some 42]), ("input_tokens", [none]),
           ("output_tokens", [none]), ("throttles", [none]),
           ("client_errors", [none]), ("server_errors", [none]),
           ("latency", [none])], 60⟩)])] := by decide

theorem periodRanges_ok_forall :
    ∀ (granularity_config : List (String × Int)) (acc : List (Int × List Int)),
      (granularity_config.foldlM (fun acc tpp =>
        (daysSecondsFor tpp.1).map (fun d => addDays acc tpp.2 d)) acc).isOk →
      ∀ kp ∈ granularity_config, ∃ d, daysSecondsFor kp.1 = .ok d
  | [], _ => by intro _ kp hkp; cases hkp
  | tpp :: cfg, acc => by
      intro hok kp hkp
      rw [List.foldlM_cons] at hok
      cases hd : daysSecondsFor tpp.1 with
      | error e =>
          rw [hd] at hok
          simp [Except.map, Except.bind] at hok
          cases hok
      | ok d =>
          rw [hd] at hok
          rcases List.mem_cons.mp hkp with he | hm
          · rw [he]; exact ⟨d, hd⟩
          · refine periodRanges_ok_forall cfg (addDays acc tpp.2 d) ?_ kp hm
            simpa [Except.map, Except.bind] using hok

/-- Claim C3 (amended, surviving part): a granularity configuration
containing an unknown display-window key makes the fetch entry point fail
fast — it returns an error that does not depend on the metrics-source
collaborator or the model list, so no fetch work is scheduled and no
metrics-source call is made.  (Monotonic coarsening, by contrast, is never
validated: see the counterexample.) -/
theorem c3_unknown_key_fails_fast (granularity_config : List (String × Int))
    (now : Int)
    (hbad : ∃ kp ∈ granularity_config, ¬(daysSecondsFor kp.1).isOk) :
    ∃ msg, ∀ (getMetricData : String → Int → Int → Int → Except String ChunkResponse)
      (model_ids : List String),
      fetch_all_data_mixed_granularity getMetricData model_ids
        granularity_config now = .error msg := by
  cases hpr : periodRanges granularity_config with
  | ok ranges =>
      exfalso
      rcases hbad with ⟨kp, hkp, hne⟩
      rcases periodRanges_ok_forall granularity_config [] (by rw [← periodRanges, hpr]; rfl)
        kp hkp with ⟨d, hd⟩
      rw [hd] at hne
      exact hne rfl
  | error msg =>
      refine ⟨msg, fun g ids => ?_⟩
      rw [fetch_all_data_mixed_granularity, hpr]
      rfl

/-- Witness for C3 (amended): the unknown key "2days". -/
theorem c3_unknown_key_fails_fast_witness :
    (∃ kp ∈ ([("2days", 300)] : List (String × Int)),
      ¬(daysSecondsFor kp.1).isOk) ∧
    ∃ msg, ∀ (getMetricData : String → Int → Int → Int → Except String ChunkResponse)
      (model_ids : List String),
      fetch_all_data_mixed_granularity getMetricData model_ids
        [("2days", 300)] 0 = .error msg :=
  ⟨⟨("2days", 300), by decide, by decide⟩,
    c3_unknown_key_fails_fast [("2days", 300)] 0
      ⟨("2days", 300), by decide, by decide⟩⟩

theorem lookup_map_self {α β : Type*} [BEq α] [LawfulBEq α] (f : α → β)
    {ids : List α} {m : α} (hm : m ∈ ids) :
    (ids.map (fun x => (x, f x))).lookup m = some (f m) := by
  induction ids with
  | nil => cases hm
  | cons a ids ih =>
      rw [List.map_cons, lookup_cons]
      by_cases h : m = a
      · rw [if_pos (by simp [h]), h]
      · rw [if_neg (by simp [h])]
        rcases List.mem_cons.mp hm with he | hmem
        · exact absurd he h
        · exact ih hmem

/-- A task whose every collaborator call errors resolves to the
fully-structured empty dataset (the `except` of source lines 341–355). -/
theorem fetch_raw_data_error
    (g : String → Int → Int → Int → Except String ChunkResponse)
    (m₀ : String) (s e p : Int) (msg : String)
    (hp : 0 < p) (hse : s < e)
    (hg : ∀ cs ce, g m₀ p cs ce = .error msg) :
    fetch_raw_data g m₀ s e p = emptyRawData p := by
  obtain ⟨f, hf⟩ : ∃ f, (e - s).toNat = f + 1 := ⟨(e - s).toNat - 1, by omega⟩
  obtain ⟨c, cs, hc⟩ : ∃ c cs, chunk_time_range s e p = c :: cs := by
    rw [chunk_time_range, hf, chunkGo, if_pos hse]
    exact ⟨_, _, rfl⟩
  have herr : collectChunks (g m₀ p) (c :: cs) = .error msg := by
    rw [collectChunks, List.foldlM_cons, hg c.1 c.2]
    rfl
  rw [fetch_raw_data, hc, herr]

/-- Claim C7: a task whose metrics-source calls raise errors resolves to a
fully-structured dataset with an empty series for every metric, no exception
escapes the entry point, the final map has one entry per requested entity,
and the results of all other entities are unaffected by the failing task's
collaborator. -/
theorem c7_task_failure_isolated
    (g : String → Int → Int → Int → Except String ChunkResponse)
    (model_ids : List String) (granularity_config : List (String × Int))
    (now : Int) (m₀ msg : String) (ranges : List (Int × List Int))
    (hok : periodRanges granularity_config = .ok ranges)
    (hpos : ∀ r ∈ ranges, 0 < r.1 ∧ 0 < r.2.foldl max 0)
    (hm : m₀ ∈ model_ids)
    (hg : ∀ p cs ce, g m₀ p cs ce = .error msg) :
    ∃ res, fetch_all_data_mixed_granularity g model_ids granularity_config now =
        .ok res ∧
      res.map Prod.fst = model_ids ∧
      res.lookup m₀ = some (ranges.map (fun r => (r.1, emptyRawData r.1))) ∧
      ∀ g₂, (∀ m, m ≠ m₀ → g₂ m = g m) →
        ∃ res₂, fetch_all_data_mixed_granularity g₂ model_ids
            granularity_config now = .ok res₂ ∧
          res₂.map Prod.fst = model_ids ∧
          ∀ m ∈ model_ids, m ≠ m₀ → res₂.lookup m = res.lookup m := by
  refine ⟨_, by rw [fetch_all_data_mixed_granularity, hok]; rfl, ?_, ?_, ?_⟩
  · rw [List.map_map]
    exact List.map_id model_ids
  · rw [lookup_map_self _ hm]
    congr 1
    rw [List.map_map]
    refine List.map_congr_left fun r hr => ?_
    simp only [Function.comp_apply]
    rw [fetch_raw_data_error g m₀ (now - r.2.foldl max 0) now r.1 msg
      (hpos r hr).1 (by have := (hpos r hr).2; omega) (hg r.1)]
  · intro g₂ hg₂
    refine ⟨_, by rw [fetch_all_data_mixed_granularity, hok]; rfl, ?_, ?_⟩
    · rw [List.map_map]
      exact List.map_id model_ids
    · intro m hmem hne
      rw [lookup_map_self _ hmem, lookup_map_self _ hmem]
      have hgm : ∀ s e p, fetch_raw_data g₂ m s e p = fetch_raw_data g m s e p := by
        intro s e p
        rw [fetch_raw_data, fetch_raw_data, hg₂ m hne]
      simp only [hgm]

/-- A collaborator that errors for model "a" and succeeds for every other
model. -/
def gFail : String → Int → Int → Int → Except String ChunkResponse :=
  fun m _ _ _ => if m = "a" then .error "boom" else .ok []

/-- Witness for C7: with models "a" and "b" and "a"'s calls failing, the
coordinator still returns one entry per model and "a"'s entry is the
fully-structured empty dataset. -/
theorem c7_task_failure_isolated_witness :
    periodRanges [("1day", 60)] = .ok [(60, [86400])] ∧
    ("a" : String) ∈ (["a", "b"] : List String) ∧
    (∀ p cs ce : Int, gFail "a" p cs ce = .error "boom") ∧
    ∃ res, fetch_all_data_mixed_granularity gFail ["a", "b"] [("1day", 60)] 0 =
        .ok res ∧
      res.map Prod.fst = ["a", "b"] ∧
      res.lookup "a" = some [(60, emptyRawData 60)] := by
  refine ⟨rfl, by decide, fun p cs ce => rfl, ?_⟩
  rcases c7_task_failure_isolated gFail ["a", "b"] [("1day", 60)] 0 "a" "boom"
      [(60, [86400])] rfl (by decide) (by decide) (fun p cs ce => rfl) with
    ⟨res, h1, h2, h3, _⟩
  exact ⟨res, h1, h2, h3.trans rfl⟩

/-! ### `aggregate_time_series` (CrossEntityAggregator, §4.8)

Source lines 604–657: per metric, a dict `values_by_ts` preset with 0 at
every timestamp of the union over all profiles of the TPM/RPM/TPD/throttle
series, into which every profile's non-null values are added; for TPM, RPM
and InvocationThrottles a resulting total of exactly 0 is elided to null,
while TPD sums raw values (never null in upstream-produced TPD series) and
emits every total, including 0. -/

/-- Source lines 614–618: if the profile has a nonempty series for the
metric, add its timestamps to the union. -/
def collectStep (p : String × List (String × Series)) (a : List Int)
    (metric : String) : List Int :=
  match p.2.lookup metric with
  | some s => if s.timestamps ≠ [] then a ++ s.timestamps else a
  | none => a

def collectProfile (acc : List Int) (p : String × List (String × Series)) :
    List Int :=
  (["TPM", "RPM", "TPD", "InvocationThrottles"] : List String).foldl
    (collectStep p) acc

def collectTimestamps (all_ts : List (String × List (String × Series))) :
    List Int :=
  all_ts.foldl collectProfile []

def sortedTimestampsOf (all_ts : List (String × List (String × Series))) :
    List Int :=
  dedupSort (collectTimestamps all_ts)

/-- `values_by_ts[ts] += val`; every timestamp that is ever summed belongs to
the preset key set (the union includes every listed metric's timestamps), so
the dict update is this in-place addition on the existing entry. -/
def updateAdd (m : List (Int × ℚ)) (ts : Int) (v : ℚ) : List (Int × ℚ) :=
  m.map (fun p => if p.1 = ts then (p.1, p.2 + v) else p)

/-- `values_by_ts[ts]` for a timestamp of the preset key set. -/
def lookupD (m : List (Int × ℚ)) (t : Int) : ℚ := (m.lookup t).getD 0

/-- One `(ts, val)` step of the loop at source lines 633–635: add the value
unless it is None. -/
def elideStep (a : List (Int × ℚ)) (q : Int × Option ℚ) : List (Int × ℚ) :=
  match q.2 with
  | some v => updateAdd a q.1 v
  | none => a

/-- One profile of the loop at source lines 630–636. -/
def elideProfile (metric : String) (acc : List (Int × ℚ))
    (p : String × List (String × Series)) : List (Int × ℚ) :=
  match p.2.lookup metric with
  | some s => (s.timestamps.zip s.values).foldl elideStep acc
  | none => acc

/-- The profile loop of source lines 630–636 (skip None values). -/
def elideFold (all_ts : List (String × List (String × Series))) (metric : String)
    (init : List (Int × ℚ)) : List (Int × ℚ) :=
  all_ts.foldl (elideProfile metric) init

/-- The uncaught exception Python raises at source line 650 when the TPD
value is None: `0 += None` is a TypeError, and `aggregate_time_series` has no
handler for it. -/
def tpdTypeError : String :=
  "TypeError: unsupported operand type(s) for +=: 'int' and 'NoneType'"

/-- One `(ts, val)` step of the TPD loop at source lines 648–650:
`values_by_ts[ts] += val`, with no None check. A non-null value is added; a
null value raises the TypeError of line 650, which aborts the whole
aggregation. -/
def tpdStep (a : List (Int × ℚ)) (q : Int × Option ℚ) :
    Except String (List (Int × ℚ)) :=
  match q.2 with
  | some v => .ok (updateAdd a q.1 v)
  | none => .error tpdTypeError

/-- One profile of the TPD loop at source lines 645–650. -/
def tpdProfile (acc : List (Int × ℚ))
    (p : String × List (String × Series)) :
    Except String (List (Int × ℚ)) :=
  match p.2.lookup "TPD" with
  | some s => (s.timestamps.zip s.values).foldlM tpdStep acc
  | none => .ok acc

/-- The TPD profile loop of source lines 645–650. -/
def tpdFold (all_ts : List (String × List (String × Series)))
    (init : List (Int × ℚ)) : Except String (List (Int × ℚ)) :=
  all_ts.foldlM tpdProfile init

/-- `values_by_ts = {ts: 0 for ts in sorted_timestamps}` (line 628). -/
def aggInit (all_ts : List (String × List (String × Series))) : List (Int × ℚ) :=
  (sortedTimestampsOf all_ts).map (fun ts => (ts, (0 : ℚ)))

/-- One aggregated non-TPD metric series: summed values with the
zero-to-null elision of line 640. -/
def aggMetricSeries (all_ts : List (String × List (String × Series)))
    (metric : String) : Series :=
  Series.mk (sortedTimestampsOf all_ts)
    ((sortedTimestampsOf all_ts).map (fun ts =>
      if 0 < lookupD (elideFold all_ts metric (aggInit all_ts)) ts then
        some (lookupD (elideFold all_ts metric (aggInit all_ts)) ts)
      else none))

/-- The aggregated TPD series: raw daily sums of lines 652–655, no elision;
errors when the TPD loop hits a null value (TypeError at line 650). -/
def aggTPDSeries (all_ts : List (String × List (String × Series))) :
    Except String Series :=
  (tpdFold all_ts (aggInit all_ts)).map (fun m =>
    Series.mk (sortedTimestampsOf all_ts)
      ((sortedTimestampsOf all_ts).map (fun ts => some (lookupD m ts))))

/-- The whole function returns normally unless the TPD loop raises, in which
case nothing is returned at all (the TypeError escapes the function), so the
result is `Except`. -/
def aggregate_time_series (all_ts : List (String × List (String × Series)))
    (time_period : String) : Except String (List (String × Series)) :=
  if all_ts = [] then .ok []
  else if sortedTimestampsOf all_ts = [] then .ok (empty_time_series time_period)
  else if time_period ≠ "1hour" then
    (aggTPDSeries all_ts).map (fun s =>
      ((["TPM", "RPM", "InvocationThrottles"] : List String).filterMap
        (fun metric =>
          -- the `continue` guard of line 625, unreachable for these names
          if metric = "TPD" ∧ time_period = "1hour" then none
          else some (metric, aggMetricSeries all_ts metric)))
      ++ [("TPD", s)])
  else
    .ok ((["TPM", "RPM", "InvocationThrottles"] : List String).filterMap
      (fun metric =>
        if metric = "TPD" ∧ time_period = "1hour" then none
        else some (metric, aggMetricSeries all_ts metric)))

/-- Claim-side definition (spec §4.8): the contribution of one series to a
timestamp — the sum of its non-null values recorded at that timestamp. -/
def seriesContrib (s : Series) (t : Int) : ℚ :=
  ((s.timestamps.zip s.values).map (fun q =>
    match q.2 with
    | some v => if q.1 = t then v else 0
    | none => 0)).sum

/-- Claim-side definition (spec §4.8): the sum of every entity's non-null
values of a metric at a timestamp. -/
def entitySum (all_ts : List (String × List (String × Series))) (metric : String)
    (t : Int) : ℚ :=
  (all_ts.map (fun p =>
    match p.2.lookup metric with
    | some s => seriesContrib s t
    | none => 0)).sum

/-- Contribution of one TPD series to a timestamp: the sum of its values
recorded there. Meaningful on null-free TPD series — the only inputs on which
the source's no-None-check summation (line 650) completes instead of raising
TypeError — where `getD 0` simply reads the (non-null) value. -/
def seriesContribTPD (s : Series) (t : Int) : ℚ :=
  ((s.timestamps.zip s.values).map (fun q =>
    if q.1 = t then q.2.getD 0 else 0)).sum

def entitySumTPD (all_ts : List (String × List (String × Series))) (t : Int) : ℚ :=
  (all_ts.map (fun p =>
    match p.2.lookup "TPD" with
    | some s => seriesContribTPD s t
    | none => 0)).sum

/-- Every TPD value of every entity is non-null: the domain on which the TPD
loop of lines 645–650 completes instead of raising TypeError. Upstream-built
TPD series satisfy this — `_aggregate_tokens_by_day` emits only numbers. -/
abbrev NullFreeTPD (all_ts : List (String × List (String × Series))) : Prop :=
  ∀ p ∈ all_ts, ∀ ms ∈ p.2, Prod.fst ms = "TPD" →
    ∀ ov ∈ (Prod.snd ms).values, ov ≠ none

/-! Shape lemmas: each aggregation fold keeps the accumulator in the form
`L.map (fun t => (t, h t))` and adds the pointwise contributions. -/

theorem updateAdd_map (L : List Int) (h : Int → ℚ) (ts : Int) (v : ℚ) :
    updateAdd (L.map (fun t => (t, h t))) ts v
      = L.map (fun t => (t, if t = ts then h t + v else h t)) := by
  unfold updateAdd
  rw [List.map_map]
  refine List.map_congr_left fun t _ => ?_
  by_cases hts : t = ts <;> simp [hts]

def contribList (l : List (Int × Option ℚ)) (t : Int) : ℚ :=
  (l.map (fun q =>
    match q.2 with
    | some v => if q.1 = t then v else 0
    | none => 0)).sum

theorem seriesContrib_eq_contribList (s : Series) (t : Int) :
    seriesContrib s t = contribList (s.timestamps.zip s.values) t := rfl

theorem elideStep_none (a : List (Int × ℚ)) (t0 : Int) :
    elideStep a (t0, none) = a := rfl

theorem elideStep_some (a : List (Int × ℚ)) (t0 : Int) (v : ℚ) :
    elideStep a (t0, some v) = updateAdd a t0 v := rfl

theorem contribList_cons_none (t0 t : Int) (l : List (Int × Option ℚ)) :
    contribList ((t0, none) :: l) t = contribList l t := by
  simp [contribList]

theorem contribList_cons_some (t0 t : Int) (v : ℚ) (l : List (Int × Option ℚ)) :
    contribList ((t0, some v) :: l) t
      = (if t0 = t then v else 0) + contribList l t := by
  simp [contribList]

theorem innerFold_map (l : List (Int × Option ℚ)) (L : List Int) (h : Int → ℚ) :
    l.foldl elideStep (L.map (fun t => (t, h t)))
      = L.map (fun t => (t, h t + contribList l t)) := by
  induction l generalizing h with
  | nil => simp [contribList]
  | cons q l ih =>
    obtain ⟨t0, v0⟩ := q
    rw [List.foldl_cons]
    cases v0 with
    | none =>
      rw [elideStep_none, ih]
      refine List.map_congr_left fun t _ => ?_
      rw [contribList_cons_none]
    | some v =>
      rw [elideStep_some, updateAdd_map, ih]
      refine List.map_congr_left fun t _ => ?_
      rw [contribList_cons_some]
      rcases eq_or_ne t t0 with h1 | h1
      · subst h1; simp; ring
      · simp [h1, Ne.symm h1]

theorem elideFold_cons (p : String × List (String × Series))
    (rest : List (String × List (String × Series))) (metric : String)
    (init : List (Int × ℚ)) :
    elideFold (p :: rest) metric init
      = elideFold rest metric (elideProfile metric init p) := rfl

theorem elideProfile_none (metric : String) (acc : List (Int × ℚ))
    (p : String × List (String × Series)) (hl : p.2.lookup metric = none) :
    elideProfile metric acc p = acc := by
  unfold elideProfile
  rw [hl]

theorem elideProfile_some (metric : String) (acc : List (Int × ℚ))
    (p : String × List (String × Series)) (s : Series)
    (hl : p.2.lookup metric = some s) :
    elideProfile metric acc p
      = (s.timestamps.zip s.values).foldl elideStep acc := by
  unfold elideProfile
  rw [hl]

theorem elideFold_map (all_ts : List (String × List (String × Series)))
    (metric : String) (L : List Int) (h : Int → ℚ) :
    elideFold all_ts metric (L.map (fun t => (t, h t)))
      = L.map (fun t => (t, h t + entitySum all_ts metric t)) := by
  induction all_ts generalizing h with
  | nil =>
    unfold elideFold entitySum
    simp
  | cons p rest ih =>
    rw [elideFold_cons]
    cases hl : p.2.lookup metric with
    | none =>
      rw [elideProfile_none _ _ _ hl, ih]
      refine List.map_congr_left fun t _ => ?_
      simp [entitySum, hl]
    | some s =>
      rw [elideProfile_some _ _ _ _ hl, innerFold_map, ih]
      refine List.map_congr_left fun t _ => ?_
      have he : entitySum (p :: rest) metric t
          = seriesContrib s t + entitySum rest metric t := by
        simp [entitySum, hl]
      rw [he, seriesContrib_eq_contribList]
      ring_nf

def contribListTPD (l : List (Int × Option ℚ)) (t : Int) : ℚ :=
  (l.map (fun q => if q.1 = t then q.2.getD 0 else 0)).sum

theorem seriesContribTPD_eq (s : Series) (t : Int) :
    seriesContribTPD s t = contribListTPD (s.timestamps.zip s.values) t := rfl

theorem ok_bind {ε α β : Type u} (a : α) (f : α → Except ε β) :
    (Except.ok a >>= f : Except ε β) = f a := rfl

theorem tpdStep_some (a : List (Int × ℚ)) (t0 : Int) (v : ℚ) :
    tpdStep a (t0, some v) = .ok (updateAdd a t0 v) := rfl

theorem tpdStep_none (a : List (Int × ℚ)) (t0 : Int) :
    tpdStep a (t0, none) = .error tpdTypeError := rfl

theorem innerFoldTPD_map (l : List (Int × Option ℚ)) (L : List Int) (h : Int → ℚ)
    (hnul : ∀ q ∈ l, q.2 ≠ none) :
    l.foldlM tpdStep (L.map (fun t => (t, h t)))
      = .ok (L.map (fun t => (t, h t + contribListTPD l t))) := by
  induction l generalizing h with
  | nil =>
    have hn : ([] : List (Int × Option ℚ)).foldlM tpdStep
        (L.map (fun t => (t, h t))) = .ok (L.map (fun t => (t, h t))) := rfl
    rw [hn]
    congr 1
    refine List.map_congr_left fun t _ => ?_
    simp [contribListTPD]
  | cons q l ih =>
    obtain ⟨t0, v0⟩ := q
    cases v0 with
    | none => exact absurd rfl (hnul (t0, none) (List.mem_cons_self _ _))
    | some v =>
      have hc : ((t0, some v) :: l).foldlM tpdStep (L.map (fun t => (t, h t)))
          = (tpdStep (L.map (fun t => (t, h t))) (t0, some v) >>=
              fun b => l.foldlM tpdStep b) := rfl
      rw [hc, tpdStep_some, ok_bind, updateAdd_map,
        ih _ (fun q hq => hnul q (List.mem_cons_of_mem _ hq))]
      congr 1
      refine List.map_congr_left fun t _ => ?_
      have hcc : contribListTPD ((t0, some v) :: l) t
          = (if t0 = t then v else 0) + contribListTPD l t := by
        simp [contribListTPD]
      rw [hcc]
      rcases eq_or_ne t t0 with h1 | h1
      · subst h1; simp; ring
      · simp [h1, Ne.symm h1]

theorem tpdFold_cons (p : String × List (String × Series))
    (rest : List (String × List (String × Series))) (init : List (Int × ℚ)) :
    tpdFold (p :: rest) init
      = (tpdProfile init p >>= fun b => tpdFold rest b) := rfl

theorem tpdProfile_none (acc : List (Int × ℚ))
    (p : String × List (String × Series)) (hl : p.2.lookup "TPD" = none) :
    tpdProfile acc p = .ok acc := by
  unfold tpdProfile
  rw [hl]

theorem tpdProfile_some (acc : List (Int × ℚ))
    (p : String × List (String × Series)) (s : Series)
    (hl : p.2.lookup "TPD" = some s) :
    tpdProfile acc p = (s.timestamps.zip s.values).foldlM tpdStep acc := by
  unfold tpdProfile
  rw [hl]

theorem tpdFold_map (all_ts : List (String × List (String × Series)))
    (L : List Int) (h : Int → ℚ) (hnf : NullFreeTPD all_ts) :
    tpdFold all_ts (L.map (fun t => (t, h t)))
      = .ok (L.map (fun t => (t, h t + entitySumTPD all_ts t))) := by
  induction all_ts generalizing h with
  | nil =>
    have hn : tpdFold [] (L.map (fun t => (t, h t)))
        = .ok (L.map (fun t => (t, h t))) := rfl
    rw [hn]
    congr 1
    refine List.map_congr_left fun t _ => ?_
    simp [entitySumTPD]
  | cons p rest ih =>
    rw [tpdFold_cons]
    cases hl : p.2.lookup "TPD" with
    | none =>
      rw [tpdProfile_none _ _ hl, ok_bind,
        ih _ (fun p1 hp1 => hnf p1 (List.mem_cons_of_mem _ hp1))]
      congr 1
      refine List.map_congr_left fun t _ => ?_
      simp [entitySumTPD, hl]
    | some s =>
      have hsnul : ∀ q ∈ s.timestamps.zip s.values, q.2 ≠ none := by
        intro q hq
        have hm2 : q.2 ∈ s.values := (List.of_mem_zip hq).2
        have hmem : ("TPD", s) ∈ p.2 := mem_of_lookup_eq_some hl
        exact hnf p (List.mem_cons_self _ _) ("TPD", s) hmem rfl q.2 hm2
      rw [tpdProfile_some _ _ _ hl, innerFoldTPD_map _ _ _ hsnul, ok_bind,
        ih _ (fun p1 hp1 => hnf p1 (List.mem_cons_of_mem _ hp1))]
      congr 1
      refine List.map_congr_left fun t _ => ?_
      have he : entitySumTPD (p :: rest) t
          = seriesContribTPD s t + entitySumTPD rest t := by
        simp [entitySumTPD, hl]
      rw [he, seriesContribTPD_eq]
      ring_nf

theorem lookupD_map (L : List Int) (h : Int → ℚ) (t : Int) (ht : t ∈ L) :
    lookupD (L.map (fun t => (t, h t))) t = h t := by
  unfold lookupD
  rw [lookup_map_self h ht]
  rfl

/-! The union of timestamps: accumulator decomposition and membership. -/

theorem collectStep_append (p : String × List (String × Series)) (acc : List Int)
    (m : String) : collectStep p acc m = acc ++ collectStep p [] m := by
  unfold collectStep
  cases hl : p.2.lookup m with
  | none => simp
  | some s =>
    by_cases hne : s.timestamps ≠ [] <;> simp [hne]

theorem collectStep_fold_acc (p : String × List (String × Series))
    (ms : List String) (acc : List Int) :
    ms.foldl (collectStep p) acc = acc ++ ms.foldl (collectStep p) [] := by
  induction ms generalizing acc with
  | nil => simp
  | cons m ms ih =>
    rw [List.foldl_cons, List.foldl_cons, ih (collectStep p acc m),
      ih (collectStep p [] m), collectStep_append, List.append_assoc]

theorem collectProfile_acc (acc : List Int) (p : String × List (String × Series)) :
    collectProfile acc p = acc ++ collectProfile [] p := by
  unfold collectProfile
  rw [collectStep_fold_acc]

theorem collect_fold_acc (l : List (String × List (String × Series)))
    (acc : List Int) :
    l.foldl collectProfile acc = acc ++ l.foldl collectProfile [] := by
  induction l generalizing acc with
  | nil => simp
  | cons p rest ih =>
    rw [List.foldl_cons, List.foldl_cons, ih (collectProfile acc p),
      ih (collectProfile [] p), collectProfile_acc, List.append_assoc]

theorem collectTimestamps_cons (p : String × List (String × Series))
    (rest : List (String × List (String × Series))) :
    collectTimestamps (p :: rest) = collectProfile [] p ++ collectTimestamps rest := by
  unfold collectTimestamps
  rw [List.foldl_cons, collect_fold_acc]

theorem mem_collectStep (p : String × List (String × Series)) (m : String)
    (t : Int) :
    t ∈ collectStep p [] m ↔ ∃ s, p.2.lookup m = some s ∧ t ∈ s.timestamps := by
  unfold collectStep
  cases hl : p.2.lookup m with
  | none => simp
  | some s =>
    by_cases hne : s.timestamps ≠ [] <;> simp_all

theorem mem_collectStep_fold (p : String × List (String × Series))
    (ms : List String) (t : Int) :
    t ∈ ms.foldl (collectStep p) [] ↔
      ∃ m ∈ ms, ∃ s, p.2.lookup m = some s ∧ t ∈ s.timestamps := by
  induction ms with
  | nil => simp
  | cons m ms ih =>
    rw [List.foldl_cons, collectStep_fold_acc, List.mem_append, ih,
      mem_collectStep]
    simp

theorem mem_collectTimestamps (all_ts : List (String × List (String × Series)))
    (t : Int) :
    t ∈ collectTimestamps all_ts ↔
      ∃ p ∈ all_ts, ∃ m ∈ (["TPM", "RPM", "TPD", "InvocationThrottles"] :
        List String), ∃ s, p.2.lookup m = some s ∧ t ∈ s.timestamps := by
  induction all_ts with
  | nil => simp [collectTimestamps]
  | cons p rest ih =>
    rw [collectTimestamps_cons, List.mem_append, ih]
    unfold collectProfile
    rw [mem_collectStep_fold]
    simp

theorem mem_sortedTimestampsOf (all_ts : List (String × List (String × Series)))
    (t : Int) :
    t ∈ sortedTimestampsOf all_ts ↔ t ∈ collectTimestamps all_ts := by
  unfold sortedTimestampsOf dedupSort
  rw [(List.perm_insertionSort _ _).mem_iff, List.mem_dedup]

/-! Evaluating the aggregated series against the claim-side sums. -/

theorem aggMetricSeries_eq (all_ts : List (String × List (String × Series)))
    (metric : String) :
    aggMetricSeries all_ts metric
      = Series.mk (sortedTimestampsOf all_ts)
          ((sortedTimestampsOf all_ts).map (fun t =>
            if 0 < entitySum all_ts metric t then some (entitySum all_ts metric t)
            else none)) := by
  unfold aggMetricSeries aggInit
  congr 1
  rw [elideFold_map]
  refine List.map_congr_left fun t ht => ?_
  rw [lookupD_map _ _ _ ht]
  simp

theorem except_map_ok {ε α β : Type u} (f : α → β) (a : α) :
    (Except.ok a : Except ε α).map f = .ok (f a) := rfl

theorem aggTPDSeries_eq (all_ts : List (String × List (String × Series)))
    (hnf : NullFreeTPD all_ts) :
    aggTPDSeries all_ts
      = .ok (Series.mk (sortedTimestampsOf all_ts)
          ((sortedTimestampsOf all_ts).map (fun t =>
            some (entitySumTPD all_ts t)))) := by
  unfold aggTPDSeries aggInit
  rw [tpdFold_map _ _ _ hnf, except_map_ok]
  congr 1
  congr 1
  refine List.map_congr_left fun t ht => ?_
  rw [lookupD_map _ _ _ ht]
  simp

theorem sortedTimestampsOf_nil : sortedTimestampsOf [] = [] := rfl

theorem aggMain_eq (all_ts : List (String × List (String × Series)))
    (tp : String) :
    ((["TPM", "RPM", "InvocationThrottles"] : List String).filterMap
      (fun metric =>
        if metric = "TPD" ∧ tp = "1hour" then none
        else some (metric, aggMetricSeries all_ts metric)))
      = [("TPM", aggMetricSeries all_ts "TPM"),
         ("RPM", aggMetricSeries all_ts "RPM"),
         ("InvocationThrottles", aggMetricSeries all_ts "InvocationThrottles")] := by
  simp

theorem aggregate_eq_of_ne (all_ts : List (String × List (String × Series)))
    (tp : String) (hne : sortedTimestampsOf all_ts ≠ [])
    (hnf : NullFreeTPD all_ts) :
    aggregate_time_series all_ts tp
      = .ok ([("TPM", aggMetricSeries all_ts "TPM"),
         ("RPM", aggMetricSeries all_ts "RPM"),
         ("InvocationThrottles", aggMetricSeries all_ts "InvocationThrottles")]
        ++ (if tp ≠ "1hour" then
            [("TPD", Series.mk (sortedTimestampsOf all_ts)
              ((sortedTimestampsOf all_ts).map (fun t =>
                some (entitySumTPD all_ts t))))]
          else [])) := by
  have hall : all_ts ≠ [] := by
    intro h
    exact hne (h ▸ sortedTimestampsOf_nil)
  unfold aggregate_time_series
  rw [if_neg hall, if_neg hne]
  by_cases htp : tp ≠ "1hour"
  · rw [if_pos htp, if_pos htp, aggTPDSeries_eq all_ts hnf, except_map_ok,
      aggMain_eq]
  · rw [if_neg htp, if_neg htp, aggMain_eq]
    simp

/-! Non-negativity of the claim-side sums and vanishing without contributors. -/

theorem seriesContrib_nonneg (s : Series) (t : Int)
    (h : ∀ ov ∈ s.values, 0 ≤ ov.getD 0) : 0 ≤ seriesContrib s t := by
  unfold seriesContrib
  apply List.sum_nonneg
  intro x hx
  rw [List.mem_map] at hx
  obtain ⟨q, hq, rfl⟩ := hx
  obtain ⟨t1, ov⟩ := q
  cases ov with
  | none => simp
  | some v =>
    have hm2 : (some v : Option ℚ) ∈ s.values := (List.of_mem_zip hq).2
    have hv : (0 : ℚ) ≤ v := by simpa using h _ hm2
    by_cases ht : t1 = t
    · simpa [ht] using hv
    · simp [ht]

theorem entitySum_nonneg (all_ts : List (String × List (String × Series)))
    (metric : String) (t : Int)
    (hnn : ∀ p ∈ all_ts, ∀ ms ∈ p.2, ∀ ov ∈ (Prod.snd ms).values, 0 ≤ ov.getD 0) :
    0 ≤ entitySum all_ts metric t := by
  unfold entitySum
  apply List.sum_nonneg
  intro x hx
  rw [List.mem_map] at hx
  obtain ⟨p, hp, rfl⟩ := hx
  cases hl : p.2.lookup metric with
  | none => simp [hl]
  | some s =>
    have hmem : (metric, s) ∈ p.2 := mem_of_lookup_eq_some hl
    have hs := seriesContrib_nonneg s t (fun ov hov => hnn p hp (metric, s) hmem ov hov)
    simpa [hl] using hs

theorem seriesContribTPD_zero (s : Series) (t : Int) (ht : t ∉ s.timestamps) :
    seriesContribTPD s t = 0 := by
  unfold seriesContribTPD
  apply List.sum_eq_zero
  intro x hx
  rw [List.mem_map] at hx
  obtain ⟨q, hq, rfl⟩ := hx
  have h1 : q.1 ∈ s.timestamps := (List.of_mem_zip hq).1
  have hne : q.1 ≠ t := fun he => ht (he ▸ h1)
  simp [hne]

theorem entitySumTPD_zero (all_ts : List (String × List (String × Series)))
    (t : Int)
    (h : ∀ p ∈ all_ts, ∀ s, p.2.lookup "TPD" = some s → t ∉ s.timestamps) :
    entitySumTPD all_ts t = 0 := by
  unfold entitySumTPD
  apply List.sum_eq_zero
  intro x hx
  rw [List.mem_map] at hx
  obtain ⟨p, hp, rfl⟩ := hx
  cases hl : p.2.lookup "TPD" with
  | none => simp [hl]
  | some s =>
    simp only [hl]
    exact seriesContribTPD_zero s t (h p hp s hl)

/-- A concrete run of the error path: a null TPD value makes the whole
aggregation raise the TypeError of line 650 instead of returning anything. -/
theorem aggregate_null_tpd_errors :
    aggregate_time_series [("p1", [("TPD", Series.mk [0] [(none : Option ℚ)])])]
      "7days" = .error tpdTypeError := rfl

/-- **C2** (corrected). For the metrics TPM, RPM and InvocationThrottles, over
inputs whose values are non-negative (token, request and throttle counts) and
whose TPD series are null-free (so the TPD loop of line 650 does not raise
TypeError and the function returns at all — upstream-built TPD series are
always null-free), the cross-entity aggregate is a series over the full sorted
union of every entity's reported timestamps, whose value at each timestamp is
the sum of every entity's non-null values there, suppressed to null exactly
when that sum is zero — in particular when every entity is null there. The
TPD metric is exempt from this elision (see the counterexample): its
aggregate emits the raw sum, `some 0` included, so the claim's "every metric"
is too strong. -/
theorem c2_zero_elision (all_ts : List (String × List (String × Series)))
    (tp metric : String)
    (hm : metric = "TPM" ∨ metric = "RPM" ∨ metric = "InvocationThrottles")
    (hne : sortedTimestampsOf all_ts ≠ [])
    (hnn : ∀ p ∈ all_ts, ∀ ms ∈ p.2, ∀ ov ∈ (Prod.snd ms).values, 0 ≤ ov.getD 0)
    (hnf : NullFreeTPD all_ts) :
    (∃ res, aggregate_time_series all_ts tp = .ok res ∧
      res.lookup metric
        = some (Series.mk (sortedTimestampsOf all_ts)
            ((sortedTimestampsOf all_ts).map (fun t =>
              if entitySum all_ts metric t = 0 then none
              else some (entitySum all_ts metric t)))))
    ∧ (∀ t, 0 ≤ entitySum all_ts metric t)
    ∧ (∀ t, t ∈ sortedTimestampsOf all_ts ↔
        ∃ p ∈ all_ts, ∃ m ∈ (["TPM", "RPM", "TPD", "InvocationThrottles"] :
          List String), ∃ s, p.2.lookup m = some s ∧ t ∈ s.timestamps) := by
  have key : ∀ m0 : String, aggMetricSeries all_ts m0
      = Series.mk (sortedTimestampsOf all_ts)
          ((sortedTimestampsOf all_ts).map (fun t =>
            if entitySum all_ts m0 t = 0 then none
            else some (entitySum all_ts m0 t))) := by
    intro m0
    rw [aggMetricSeries_eq]
    congr 1
    refine List.map_congr_left fun t _ => ?_
    have h0 : 0 ≤ entitySum all_ts m0 t := entitySum_nonneg all_ts m0 t hnn
    by_cases he : entitySum all_ts m0 t = 0
    · simp [he]
    · have hlt : 0 < entitySum all_ts m0 t := lt_of_le_of_ne h0 (Ne.symm he)
      simp [he, hlt]
  refine ⟨⟨_, aggregate_eq_of_ne all_ts tp hne hnf, ?_⟩,
    fun t => entitySum_nonneg all_ts metric t hnn,
    fun t => by rw [mem_sortedTimestampsOf, mem_collectTimestamps]⟩
  rcases hm with rfl | rfl | rfl <;>
    simp [lookup_cons, key]

def c2wData : List (String × List (String × Series)) :=
  [("p1", [("TPM", Series.mk [0] [some 3])]),
   ("p2", [("TPM", Series.mk [0] [none])])]

theorem c2_zero_elision_witness :
    sortedTimestampsOf c2wData ≠ []
    ∧ (∀ p ∈ c2wData, ∀ ms ∈ p.2, ∀ ov ∈ (Prod.snd ms).values, 0 ≤ ov.getD 0)
    ∧ NullFreeTPD c2wData
    ∧ (∃ res, aggregate_time_series c2wData "7days" = .ok res ∧
        res.lookup "TPM"
          = some (Series.mk (sortedTimestampsOf c2wData)
              ((sortedTimestampsOf c2wData).map (fun t =>
                if entitySum c2wData "TPM" t = 0 then none
                else some (entitySum c2wData "TPM" t))))) :=
  ⟨by decide, by decide, by decide,
    (c2_zero_elision c2wData "7days" "TPM" (Or.inl rfl) (by decide) (by decide)
      (by decide)).1⟩

def c2cData : List (String × List (String × Series)) :=
  [("p1", [("TPD", Series.mk [0] [some (0 : ℚ)])])]

/-- **C2 counterexample.** A single entity whose TPD series reports the
(non-null) value 0 at its only timestamp: the sum over contributing entities
is exactly zero, so the claim demands an aggregate of null there, but the
code's aggregated TPD value at that timestamp is `some 0` — the TPD branch of
`aggregate_time_series` (lines 643–655) emits every raw sum with no zero
elision. -/
theorem c2_counterexample :
    (aggregate_time_series c2cData "7days").map (fun res => res.lookup "TPD")
      = .ok (some (Series.mk [0] [some ((0 : ℚ) + 0)]))
    ∧ ((0 : ℚ) + 0) = 0
    ∧ (some ((0 : ℚ) + 0) : Option ℚ) ≠ none :=
  ⟨rfl, by norm_num, by simp⟩

/-- **C10** (confirmed). For any display window other than "1hour", over
inputs whose TPD series are null-free (the domain on which the TPD loop of
line 650 completes instead of raising TypeError — upstream-built TPD series
are always null-free), the aggregated TPD series is exempt from the
zero-to-null elision: it covers the full sorted union of every entity's
reported timestamps for all four metrics (including timestamps reported only
by other metrics), and at every such timestamp it holds a numeric value
`some (entitySumTPD ...)`; at a timestamp where no entity's TPD series
contributes, that value is the numeric 0, not null. -/
theorem c10_tpd_exempt (all_ts : List (String × List (String × Series)))
    (tp : String) (htp : tp ≠ "1hour")
    (hne : sortedTimestampsOf all_ts ≠ [])
    (hnf : NullFreeTPD all_ts) :
    (∃ res, aggregate_time_series all_ts tp = .ok res ∧
      res.lookup "TPD"
        = some (Series.mk (sortedTimestampsOf all_ts)
            ((sortedTimestampsOf all_ts).map (fun t =>
              some (entitySumTPD all_ts t)))))
    ∧ (∀ t, t ∈ sortedTimestampsOf all_ts ↔
        ∃ p ∈ all_ts, ∃ m ∈ (["TPM", "RPM", "TPD", "InvocationThrottles"] :
          List String), ∃ s, p.2.lookup m = some s ∧ t ∈ s.timestamps)
    ∧ (∀ t, (∀ p ∈ all_ts, ∀ s, p.2.lookup "TPD" = some s → t ∉ s.timestamps) →
        entitySumTPD all_ts t = 0) := by
  refine ⟨⟨_, aggregate_eq_of_ne all_ts tp hne hnf, ?_⟩,
    fun t => by rw [mem_sortedTimestampsOf, mem_collectTimestamps],
    fun t h => entitySumTPD_zero all_ts t h⟩
  rw [if_pos htp]
  simp [lookup_cons]

def c10wData : List (String × List (String × Series)) :=
  [("p1", [("TPD", Series.mk [0] [some 4]), ("TPM", Series.mk [60] [some 1])])]

theorem c10_tpd_exempt_witness :
    ("7days" : String) ≠ "1hour"
    ∧ sortedTimestampsOf c10wData ≠ []
    ∧ NullFreeTPD c10wData
    ∧ (∃ res, aggregate_time_series c10wData "7days" = .ok res ∧
        res.lookup "TPD"
          = some (Series.mk (sortedTimestampsOf c10wData)
              ((sortedTimestampsOf c10wData).map (fun t =>
                some (entitySumTPD c10wData t))))) :=
  ⟨by decide, by decide, by decide,
    (c10_tpd_exempt c10wData "7days" (by decide) (by decide) (by decide)).1⟩
